import Mathlib

/-! # govaluate: client-expression rendering (EvaluableExpression_client.go)

A shallow embedding of `ToClientExpression`, `traverseStages`, `simplifyTokens`,
`dropTrailingTrues`, `dropLeadingTrues` and `findNextClientString`.

Conventions of the embedding.

* A Go `interface{}` payload is a `Value F`; `F` stands for `float64` and is kept abstract.
* A Go run-time panic (failed type assertion, slice index out of range) is the outcome
  `Exec.panic`; a Go `(string, error)` result is a pair `String × Option String`, the second
  component being `none` for a nil error.
* Everything the file uses but does not declare (the lexer, the planner, the evaluator, the
  `fmt` verbs applied to interface values, the operator-symbol tables) is a field of `Env`.
-/

namespace Govaluate

/-! ## Data model -/

/-- Token kinds. The fourteen kinds the renderer dispatches on are the ones named in the
source; `UNKNOWN` is the zero value of the Go type (the kind of the zero token carried by a
grouping stage), `FUNCTION` and `ACCESSOR` are the remaining kinds of the lexer. -/
inductive TokenKind where
  | UNKNOWN
  | PREFIX
  | NUMERIC
  | BOOLEAN
  | STRING
  | PATTERN
  | TIME
  | VARIABLE
  | FUNCTION
  | SEPARATOR
  | ACCESSOR
  | COMPARATOR
  | LOGICALOP
  | MODIFIER
  | CLAUSE
  | CLAUSE_CLOSE
  | TERNARY
  deriving DecidableEq, Repr

/-- Operator symbols. Only the symbols the source names are distinguished; every other
symbol of the Go enumeration (including its zero value, which a table lookup miss yields)
is `other code`. -/
inductive OperatorSymbol where
  | NOOP
  | AND
  | COALESCE
  | TERNARY_TRUE
  | TERNARY_FALSE
  | INVERT
  | EXPONENT
  | MODULUS
  | other (code : Nat)
  deriving DecidableEq, Repr

/-- Dynamic payload of a token or of a binding (`interface{}`): nil, `bool`, `string`,
`float64`, a compiled pattern (kept as its source text) or a `time.Time` instant. -/
inductive Value (F : Type) where
  | nil
  | bool (b : Bool)
  | str (s : String)
  | num (f : F)
  | pattern (src : String)
  | time (t : Int)
  deriving DecidableEq, Repr

/-- Go test `v == nil` on an interface value. -/
def Value.isNil {F : Type} : Value F → Bool
  | .nil => true
  | _ => false

/-- Type `ExpressionToken`: a kind tag and a payload. -/
structure ExpressionToken (F : Type) where
  Kind : TokenKind
  Value : Value F
  deriving DecidableEq, Repr

/-- Type `*evaluationStage`: a possibly nil pointer to a stage; a stage has a symbol, two
possibly nil children and the token it was planned from. -/
inductive evaluationStage (F : Type) where
  | nil
  | node (symbol : OperatorSymbol) (leftStage rightStage : evaluationStage F)
      (originalToken : ExpressionToken F)
  deriving DecidableEq, Repr

/-- Type `EvaluableExpression`, restricted to the fields the file reads. -/
structure EvaluableExpression (F : Type) where
  QueryDateFormat : String
  evaluationStages : evaluationStage F
  deriving DecidableEq, Repr

/-- Type `map[string]interface{}`: `none` for an absent key. -/
abbrev Parameters (F : Type) := String → Option (Value F)

/-- Outcome of running a piece of Go code: a normal return, a run-time panic, or (for the
fuel-indexed functions only) exhaustion of the fuel. -/
inductive Exec (α : Type) where
  | done (a : α)
  | panic
  | outOfFuel
  deriving DecidableEq, Repr

/-- External collaborators and declarations used by the file but declared elsewhere. -/
structure Env (F : Type) where
  /-- Function `NewEvaluableExpressionFromTokens`; `none` for a non-nil error. -/
  NewEvaluableExpressionFromTokens : List (ExpressionToken F) → Option (EvaluableExpression F)
  /-- Method `EvaluableExpression.Evaluate`; `none` for a non-nil error. -/
  Evaluate : EvaluableExpression F → Parameters F → Option (Value F)
  /-- Call `parseTokens(text, nil)`; `none` for a non-nil error. -/
  parseTokens : String → Option (List (ExpressionToken F))
  /-- Text `fmt.Sprintf("%v", v)` of an interface value. -/
  sprintV : Value F → String
  /-- Text `fmt.Sprintf("%s", v)` of an interface value. -/
  sprintS : Value F → String
  /-- Text `fmt.Sprintf("%g", f)` of a `float64`. -/
  sprintG : F → String
  /-- Method `time.Time.Format(layout)`. -/
  formatTime : Int → String → String
  /-- Method `TokenKind.String()`. -/
  kindString : TokenKind → String
  /-- Table `ternarySymbols`, a miss giving the zero symbol. -/
  ternarySymbols : String → OperatorSymbol
  /-- Table `prefixSymbols`, a miss giving the zero symbol. -/
  prefixSymbols : String → OperatorSymbol
  /-- Table `modifierSymbols`, a miss giving the zero symbol. -/
  modifierSymbols : String → OperatorSymbol
  /-- Text `AND.String()`. -/
  andString : String

section Walker

variable {F : Type}

/-! ## Stage tree walker -/

/-- Function `simplifyTokens` (lines 81-93). -/
def simplifyTokens (env : Env F) (tokens : List (ExpressionToken F)) (parameters : Parameters F) :
    List (ExpressionToken F) :=
  if tokens.length > 1 then
    match env.NewEvaluableExpressionFromTokens tokens with
    | some new =>
      match env.Evaluate new parameters with
      | some val =>
        match env.parseTokens (env.sprintV val) with
        | some newTokens => newTokens
        | none => tokens
      | none => tokens
    | none => tokens
  else tokens

/-- Function `dropTrailingTrues` (lines 95-110). The two type assertions panic on a payload of
another dynamic type. -/
def dropTrailingTrues (env : Env F) (tokens right : List (ExpressionToken F)) :
    Exec (List (ExpressionToken F) × Bool) :=
  if !(tokens.length > 0) || !(right.length == 1) then .done (tokens, true)
  else
    match tokens.getLast?, right.head? with
    | some lastToken, some right0 =>
      if !(lastToken.Kind == TokenKind.LOGICALOP) || right0.Kind != TokenKind.BOOLEAN then
        .done (tokens, true)
      else
        match right0.Value with
        | .bool b =>
          if !b then .done (tokens, true)
          else
            match lastToken.Value with
            | .str s =>
              if s == env.andString then .done (tokens.dropLast, false)
              else .done (tokens, false)
            | _ => .panic
        | _ => .panic
    | _, _ => .panic

/-- Function `dropLeadingTrues` (lines 112-127). -/
def dropLeadingTrues (env : Env F) (left : List (ExpressionToken F))
    (rootToken : ExpressionToken F) : Exec Bool :=
  if rootToken.Value.isNil || !(left.length == 1) then .done true
  else
    match left.head? with
    | some left0 =>
      if !(rootToken.Kind == TokenKind.LOGICALOP) || left0.Kind != TokenKind.BOOLEAN then
        .done true
      else
        match left0.Value with
        | .bool b =>
          if !b then .done true
          else
            match rootToken.Value with
            | .str s => if s == env.andString then .done false else .done true
            | _ => .panic
        | _ => .panic
    | none => .panic

/-- The sequence `traverseStages` has built for one stage when it reaches line 75, from the
stage's symbol and token and the already linearized children (lines 41-73). -/
def buildStage (env : Env F) (symbol : OperatorSymbol) (originalToken : ExpressionToken F)
    (left right : List (ExpressionToken F)) : Exec (List (ExpressionToken F)) :=
  let ret : List (ExpressionToken F) :=
    if symbol = OperatorSymbol.NOOP then [⟨TokenKind.CLAUSE, .nil⟩] else []
  match dropLeadingTrues env left originalToken with
  | .done okToAdd =>
    let ret := if okToAdd then ret ++ left else ret
    let ret := if !originalToken.Value.isNil && okToAdd then ret ++ [originalToken] else ret
    match dropTrailingTrues env ret right with
    | .done (ret, okToAdd) =>
      let ret := if okToAdd then ret ++ right else ret
      let ret := if symbol = OperatorSymbol.NOOP then ret ++ [⟨TokenKind.CLAUSE_CLOSE, .nil⟩] else ret
      .done ret
    | .panic => .panic
    | .outOfFuel => .outOfFuel
  | .panic => .panic
  | .outOfFuel => .outOfFuel

/-- Function `traverseStages` (lines 36-79). -/
def traverseStages (env : Env F) (parameters : Parameters F) :
    evaluationStage F → Exec (List (ExpressionToken F))
  | .nil => .done []
  | .node symbol leftStage rightStage originalToken =>
    match traverseStages env parameters leftStage with
    | .done left =>
      match traverseStages env parameters rightStage with
      | .done right =>
        match buildStage env symbol originalToken left right with
        | .done ret => .done (simplifyTokens env ret parameters)
        | .panic => .panic
        | .outOfFuel => .outOfFuel
      | .panic => .panic
      | .outOfFuel => .outOfFuel
    | .panic => .panic
    | .outOfFuel => .outOfFuel

end Walker

section Renderer

variable {F : Type}

/-! ## Token stream and output stream -/

/-- Modelled from the spec: `tokenStream` is declared outside this file. It is the cursor of
the spec's system overview: an ordered sequence of tokens with a position, supporting a
single-step advance, a single-step rewind and an end-of-stream check. -/
structure tokenStream (F : Type) where
  tokens : List (ExpressionToken F)
  index : Nat
  deriving DecidableEq, Repr

/-- Modelled from the spec: `newTokenStream`, a cursor at the start of the sequence. -/
def newTokenStream (tokens : List (ExpressionToken F)) : tokenStream F :=
  ⟨tokens, 0⟩

/-- Modelled from the spec: `tokenStream.hasNext`, the end-of-stream check. -/
def tokenStream.hasNext (stream : tokenStream F) : Bool :=
  stream.index < stream.tokens.length

/-- Modelled from the spec: `tokenStream.next`, the single-step advance, returning the token
under the cursor; `none` is the Go panic of indexing past the end of the slice. -/
def tokenStream.next (stream : tokenStream F) : Option (ExpressionToken F × tokenStream F) :=
  match stream.tokens[stream.index]? with
  | some token => some (token, ⟨stream.tokens, stream.index + 1⟩)
  | none => none

/-- Modelled from the spec: `tokenStream.rewind`, undoing the last advance. -/
def tokenStream.rewind (stream : tokenStream F) : tokenStream F :=
  ⟨stream.tokens, stream.index - 1⟩

/-- Modelled from the spec: `expressionOutputStream` is declared outside this file. It is the
ordered buffer of rendered fragments of the spec's system overview. -/
structure expressionOutputStream where
  transactions : List String
  deriving DecidableEq, Repr

/-- Modelled from the spec: `expressionOutputStream.add`, appending one fragment. -/
def expressionOutputStream.add (out : expressionOutputStream) (transaction : String) :
    expressionOutputStream :=
  ⟨out.transactions ++ [transaction]⟩

/-- Modelled from the spec: `expressionOutputStream.rollback`, removing and returning the most
recently appended fragment; `none` (a Go panic) when there is none. -/
def expressionOutputStream.rollback (out : expressionOutputStream) :
    Option (String × expressionOutputStream) :=
  match out.transactions.getLast? with
  | some last => some (last, ⟨out.transactions.dropLast⟩)
  | none => none

/-- Modelled from the spec: `expressionOutputStream.createString`, joining all fragments with
the separator. -/
def expressionOutputStream.createString (out : expressionOutputStream) (delimiter : String) :
    String :=
  delimiter.intercalate out.transactions

/-! ## Client renderer -/

/-- State returned by one render step: the fragment, the error, the stream, the buffer. -/
abbrev Step (F : Type) := String × Option String × tokenStream F × expressionOutputStream

/-- Error of line 180. -/
def ternaryUnsupported : String := "Ternary operators are unsupported in SQL output"

/-- Error message of line 243. -/
def unrecognizedToken (env : Env F) (token : ExpressionToken F) : String :=
  "Unrecognized query token '" ++ env.sprintS token.Value ++ "' of kind '" ++
    env.kindString token.Kind ++ "'"

/-- What a caller of a recursive `findNextClientString` does with the operand's outcome: an
error is returned as `("", err)`, a fragment goes through `k`. -/
def withOperand (r : Exec (Step F)) (k : String → String) : Exec (Step F) :=
  match r with
  | .done (right, none, stream, transactions) => .done (k right, none, stream, transactions)
  | .done (_, some err, stream, transactions) => .done ("", some err, stream, transactions)
  | .panic => .panic
  | .outOfFuel => .outOfFuel

/-- Function `findNextClientString` (lines 129-248), with the recursion depth bounded by `fuel`. -/
def findNextClientStringAux (env : Env F) (expression : EvaluableExpression F)
    (parameters : Parameters F) :
    Nat → tokenStream F → expressionOutputStream → Exec (Step F)
  | 0, _, _ => .outOfFuel
  | fuel + 1, stream, transactions =>
    match stream.next with
    | none => .panic
    | some (token, stream) =>
      match token.Kind with
      | .PATTERN =>
        match token.Value with
        | .pattern src => .done ("'" ++ src ++ "'", none, stream, transactions)
        | _ => .panic
      | .TIME =>
        match token.Value with
        | .time t =>
          .done ("'" ++ env.formatTime t expression.QueryDateFormat ++ "'", none, stream,
            transactions)
        | _ => .panic
      | .BOOLEAN =>
        match token.Value with
        | .bool b => .done (if b then "TRUE" else "FALSE", none, stream, transactions)
        | _ => .panic
      | .LOGICALOP | .COMPARATOR | .STRING =>
        .done (env.sprintV token.Value, none, stream, transactions)
      | .VARIABLE =>
        match token.Value with
        | .str name =>
          match parameters name with
          | some val => .done (env.sprintV val, none, stream, transactions)
          | none => .done (name, none, stream, transactions)
        | _ => .panic
      | .NUMERIC =>
        match token.Value with
        | .num f => .done (env.sprintG f, none, stream, transactions)
        | _ => .panic
      | .TERNARY =>
        match token.Value with
        | .str s =>
          match env.ternarySymbols s with
          | .COALESCE =>
            match transactions.rollback with
            | some (left, transactions) =>
              withOperand (findNextClientStringAux env expression parameters fuel stream transactions)
                (fun right => "IF(" ++ left ++ " == NULL, " ++ right ++ ", " ++ left ++ ")")
            | none => .panic
          | .TERNARY_TRUE =>
            match transactions.rollback with
            | some (left, transactions) => .done (left, none, stream, transactions)
            | none => .panic
          | .TERNARY_FALSE => .done ("", some ternaryUnsupported, stream, transactions)
          | _ => .done ("", none, stream, transactions)
        | _ => .panic
      | .PREFIX =>
        match token.Value with
        | .str s =>
          match env.prefixSymbols s with
          | .INVERT =>
            match stream.next with
            | some (nextToken, stream) =>
              let stream := stream.rewind
              withOperand (findNextClientStringAux env expression parameters fuel stream transactions)
                (fun right =>
                  if nextToken.Kind = TokenKind.CLAUSE then "NOT " ++ right
                  else "NOT (" ++ right ++ ")")
            | none => .panic
          | _ =>
            withOperand (findNextClientStringAux env expression parameters fuel stream transactions)
              (fun right => s ++ right)
        | _ => .panic
      | .MODIFIER =>
        match token.Value with
        | .str s =>
          match env.modifierSymbols s with
          | .EXPONENT =>
            match transactions.rollback with
            | some (left, transactions) =>
              withOperand (findNextClientStringAux env expression parameters fuel stream transactions)
                (fun right => left ++ "^" ++ right)
            | none => .panic
          | .MODULUS =>
            match transactions.rollback with
            | some (left, transactions) =>
              withOperand (findNextClientStringAux env expression parameters fuel stream transactions)
                (fun right => left ++ " % " ++ right)
            | none => .panic
          | _ => .done (s, none, stream, transactions)
        | _ => .panic
      | .CLAUSE => .done ("(", none, stream, transactions)
      | .CLAUSE_CLOSE => .done (")", none, stream, transactions)
      | .SEPARATOR => .done (",", none, stream, transactions)
      | _ => .done ("", some (unrecognizedToken env token), stream, transactions)

/-- Function `findNextClientString`: every call consumes a token before it recurses, so the number of
tokens left in the stream plus one bounds the recursion depth. -/
def findNextClientString (env : Env F) (expression : EvaluableExpression F)
    (stream : tokenStream F) (transactions : expressionOutputStream)
    (parameters : Parameters F) : Exec (Step F) :=
  findNextClientStringAux env expression parameters
    (stream.tokens.length - stream.index + 1) stream transactions

/-- The loop of `ToClientExpression` (lines 22-32), with the number of iterations bounded by
`fuel`. -/
def renderLoop (env : Env F) (expression : EvaluableExpression F) (parameters : Parameters F) :
    Nat → tokenStream F → expressionOutputStream → Exec (String × Option String)
  | 0, _, _ => .outOfFuel
  | fuel + 1, stream, transactions =>
    if stream.hasNext then
      match findNextClientString env expression stream transactions parameters with
      | .done (transaction, none, stream, transactions) =>
        renderLoop env expression parameters fuel stream (transactions.add transaction)
      | .done (_, some err, _, _) => .done ("", some err)
      | .panic => .panic
      | .outOfFuel => .outOfFuel
    else .done (transactions.createString " ", none)

/-- The part of `ToClientExpression` after line 20: rendering a linearized token sequence
from an empty output buffer. Every iteration consumes a token, so the number of tokens plus
one bounds the number of iterations. -/
def renderTokens (env : Env F) (expression : EvaluableExpression F) (parameters : Parameters F)
    (ret : List (ExpressionToken F)) : Exec (String × Option String) :=
  renderLoop env expression parameters (ret.length + 1) (newTokenStream ret) ⟨[]⟩

/-- Function `ToClientExpression` (lines 11-33). -/
def ToClientExpression (env : Env F) (expression : EvaluableExpression F)
    (parameters : Parameters F) : Exec (String × Option String) :=
  match traverseStages env parameters expression.evaluationStages with
  | .done ret => renderTokens env expression parameters ret
  | .panic => .panic
  | .outOfFuel => .outOfFuel

end Renderer

/-! ## Vocabulary of the claims -/

section Vocabulary

variable {F : Type}

/-- A ternary else-branch token: kind TERNARY, a string payload, symbol TERNARY_FALSE. -/
def isTernaryElse (env : Env F) (t : ExpressionToken F) : Bool :=
  match t.Kind, t.Value with
  | .TERNARY, .str s => env.ternarySymbols s == OperatorSymbol.TERNARY_FALSE
  | _, _ => false

/-- Facts about a render step from `stream` that returned `(x, e)` and the stream `s1`: the
stream keeps its tokens and its cursor moved strictly forward within the sequence; an
error comes with the empty fragment; a fragment returned without error was rendered
without reading any else-branch token. -/
def StepDone (env : Env F) (stream : tokenStream F) (x : String) (e : Option String)
    (s1 : tokenStream F) : Prop :=
  s1.tokens = stream.tokens ∧ stream.index < s1.index ∧ s1.index ≤ stream.tokens.length ∧
  (e ≠ none → x = "") ∧
  (e = none → ∀ i t, stream.index ≤ i → i < s1.index → stream.tokens[i]? = some t →
    isTernaryElse env t = false)

/-- States of the loop of `ToClientExpression`: `LoopReach env e p s out s2 out2` holds when
the loop, started with stream `s` and buffer `out`, arrives at the head of an iteration with
stream `s2` and buffer `out2`, every render step in between having returned a fragment
without error. -/
inductive LoopReach (env : Env F) (expression : EvaluableExpression F)
    (parameters : Parameters F) :
    tokenStream F → expressionOutputStream → tokenStream F → expressionOutputStream → Prop where
  | here (s : tokenStream F) (out : expressionOutputStream) :
      LoopReach env expression parameters s out s out
  | step {s s1 s2 : tokenStream F} {out out1 out2 : expressionOutputStream}
      {transaction : String}
      (hnext : s.hasNext = true)
      (hstep : findNextClientString env expression s out parameters
        = .done (transaction, none, s1, out1))
      (hrest : LoopReach env expression parameters s1 (out1.add transaction) s2 out2) :
      LoopReach env expression parameters s out s2 out2

/-- The kinds of the literal and variable tokens. -/
def isOperandKind : TokenKind → Bool
  | .BOOLEAN | .NUMERIC | .STRING | .PATTERN | .TIME | .VARIABLE => true
  | _ => false

/-- The fragment of a token that is rendered on its own, without reading a further token
or the output buffer: a literal, a variable, a logical operator, a comparator, a clause or
separator token, a modifier other than exponent and modulus, a ternary token of no known
symbol; `none` for every other token and for a payload of the wrong dynamic type. -/
def plainFragment (env : Env F) (expression : EvaluableExpression F)
    (parameters : Parameters F) (t : ExpressionToken F) : Option String :=
  match t.Kind, t.Value with
  | .PATTERN, .pattern src => some ("'" ++ src ++ "'")
  | .TIME, .time i => some ("'" ++ env.formatTime i expression.QueryDateFormat ++ "'")
  | .BOOLEAN, .bool b => some (if b then "TRUE" else "FALSE")
  | .LOGICALOP, v => some (env.sprintV v)
  | .COMPARATOR, v => some (env.sprintV v)
  | .STRING, v => some (env.sprintV v)
  | .VARIABLE, .str name =>
    match parameters name with
    | some val => some (env.sprintV val)
    | none => some name
  | .NUMERIC, .num f => some (env.sprintG f)
  | .MODIFIER, .str s =>
    match env.modifierSymbols s with
    | .EXPONENT => none
    | .MODULUS => none
    | _ => some s
  | .TERNARY, .str s =>
    match env.ternarySymbols s with
    | .COALESCE => none
    | .TERNARY_TRUE => none
    | .TERNARY_FALSE => none
    | _ => some ""
  | .CLAUSE, _ => some "("
  | .CLAUSE_CLOSE, _ => some ")"
  | .SEPARATOR, _ => some ","
  | _, _ => none

/-- No stage of the tree has a logical operator as its token. -/
def noLogicalOp : evaluationStage F → Bool
  | .nil => true
  | .node _ l r t => t.Kind != TokenKind.LOGICALOP && noLogicalOp l && noLogicalOp r

/-- The last token of the sequence is a logical operator. -/
def endsInLogicalOp (tokens : List (ExpressionToken F)) : Bool :=
  match tokens.getLast? with
  | some t => t.Kind == TokenKind.LOGICALOP
  | none => false

/-- The in-order sequence of one stage without elision: a clause-open token for a grouping
stage, the left tokens, the stage's token when its value is not nil, the right tokens, a
clause-close token for a grouping stage. -/
def inOrder (symbol : OperatorSymbol) (originalToken : ExpressionToken F)
    (left right : List (ExpressionToken F)) : List (ExpressionToken F) :=
  (if symbol = OperatorSymbol.NOOP then [⟨TokenKind.CLAUSE, .nil⟩] else []) ++ left ++
    (if originalToken.Value.isNil then [] else [originalToken]) ++ right ++
    (if symbol = OperatorSymbol.NOOP then [⟨TokenKind.CLAUSE_CLOSE, .nil⟩] else [])

/-- The plain in-order linearization of a tree, with folding at every stage and no
elision. -/
def plainLinearize (env : Env F) (parameters : Parameters F) :
    evaluationStage F → List (ExpressionToken F)
  | .nil => []
  | .node symbol l r t =>
    simplifyTokens env
      (inOrder symbol t (plainLinearize env parameters l) (plainLinearize env parameters r))
      parameters

/-- The kinds `findNextClientString` has a case for. -/
def inDispatchSet : TokenKind → Bool
  | .PATTERN | .TIME | .BOOLEAN | .LOGICALOP | .COMPARATOR | .STRING | .VARIABLE | .NUMERIC
  | .TERNARY | .PREFIX | .MODIFIER | .CLAUSE | .CLAUSE_CLOSE | .SEPARATOR => true
  | _ => false

/-- The token is an operator whose case renders an operand by a recursive call: a prefix
operator, the coalesce operator, the exponent or the modulus modifier. -/
def rendersOperand (env : Env F) (t : ExpressionToken F) : Bool :=
  match t.Kind, t.Value with
  | .PREFIX, _ => true
  | .TERNARY, .str s => env.ternarySymbols s == OperatorSymbol.COALESCE
  | .MODIFIER, .str s =>
    env.modifierSymbols s == OperatorSymbol.EXPONENT ||
      env.modifierSymbols s == OperatorSymbol.MODULUS
  | _, _ => false

/-- A ternary then-branch token. -/
def isTernaryThen (env : Env F) (t : ExpressionToken F) : Bool :=
  match t.Kind, t.Value with
  | .TERNARY, .str s => env.ternarySymbols s == OperatorSymbol.TERNARY_TRUE
  | _, _ => false

/-- The token invariant of the data model: the payload has the dynamic type the renderer
asserts for the kind. -/
def wellTyped (t : ExpressionToken F) : Bool :=
  match t.Kind, t.Value with
  | .PATTERN, .pattern _ => true
  | .PATTERN, _ => false
  | .TIME, .time _ => true
  | .TIME, _ => false
  | .BOOLEAN, .bool _ => true
  | .BOOLEAN, _ => false
  | .VARIABLE, .str _ => true
  | .VARIABLE, _ => false
  | .NUMERIC, .num _ => true
  | .NUMERIC, _ => false
  | .TERNARY, .str _ => true
  | .TERNARY, _ => false
  | .PREFIX, .str _ => true
  | .PREFIX, _ => false
  | .MODIFIER, .str _ => true
  | .MODIFIER, _ => false
  | _, _ => true

/-- The stages of a tree: the tree itself and the stages of its children. -/
def stagesOf : evaluationStage F → List (evaluationStage F)
  | .nil => []
  | .node symbol l r t => .node symbol l r t :: (stagesOf l ++ stagesOf r)

/-- A stage of the tree carries a ternary else-branch token. -/
def containsTernaryElse (env : Env F) : evaluationStage F → Bool
  | .nil => false
  | .node _ l r t => isTernaryElse env t || containsTernaryElse env l || containsTernaryElse env r

/-- The tokens of claim C11 under the token invariant: a boolean carrying a bool, a string,
a comparator, a logical operator, a variable carrying its name, a clause-open, clause-close
or separator token, a modifier carrying a symbol that is neither exponent nor modulus. -/
def isSimpleToken (env : Env F) (t : ExpressionToken F) : Bool :=
  match t.Kind, t.Value with
  | .BOOLEAN, .bool _ => true
  | .STRING, _ => true
  | .COMPARATOR, _ => true
  | .LOGICALOP, _ => true
  | .VARIABLE, .str _ => true
  | .CLAUSE, _ => true
  | .CLAUSE_CLOSE, _ => true
  | .SEPARATOR, _ => true
  | .MODIFIER, .str s =>
    env.modifierSymbols s != OperatorSymbol.EXPONENT &&
      env.modifierSymbols s != OperatorSymbol.MODULUS
  | _, _ => false

/-- The fragment claim C11 gives to a token: TRUE or FALSE for a boolean, the parentheses
for the clause tokens, the comma for the separator, and the textual value for the others
(the symbol of a modifier, the bound value or else the name of a variable, the text of the
payload of a string, comparator or logical operator). -/
def simpleFragment (env : Env F) (parameters : Parameters F) (t : ExpressionToken F) : String :=
  match t.Kind, t.Value with
  | .BOOLEAN, .bool b => if b then "TRUE" else "FALSE"
  | .CLAUSE, _ => "("
  | .CLAUSE_CLOSE, _ => ")"
  | .SEPARATOR, _ => ","
  | .MODIFIER, .str s => s
  | .VARIABLE, .str name =>
    match parameters name with
    | some val => env.sprintV val
    | none => name
  | _, v => env.sprintV v

/-- The token invariant the elision functions rely on: a boolean token carries a bool and a
logical-operator token carries a string. -/
def tokenTyped (t : ExpressionToken F) : Bool :=
  match t.Kind, t.Value with
  | .BOOLEAN, .bool _ => true
  | .BOOLEAN, _ => false
  | .LOGICALOP, .str _ => true
  | .LOGICALOP, _ => false
  | _, _ => true

/-- The invariant for the token of a stage: its value is nil, or it is a well-typed token. -/
def rootTyped (t : ExpressionToken F) : Bool :=
  t.Value.isNil || tokenTyped t

/-- Every stage of the tree has a token satisfying the invariant. -/
def treeTyped : evaluationStage F → Bool
  | .nil => true
  | .node _ l r t => rootTyped t && treeTyped l && treeTyped r

/-- The clause-open token a grouping stage starts with, and nothing for another stage. -/
def clauseOpen (symbol : OperatorSymbol) : List (ExpressionToken F) :=
  if symbol = OperatorSymbol.NOOP then [⟨TokenKind.CLAUSE, .nil⟩] else []

/-- The clause-close token a grouping stage ends with, and nothing for another stage. -/
def clauseClose (symbol : OperatorSymbol) : List (ExpressionToken F) :=
  if symbol = OperatorSymbol.NOOP then [⟨TokenKind.CLAUSE_CLOSE, .nil⟩] else []

/-- The stage's token as a sequence: the token when its value is not nil, else nothing. -/
def operatorTokens (originalToken : ExpressionToken F) : List (ExpressionToken F) :=
  if originalToken.Value.isNil then [] else [originalToken]

/-- At every stage whose token has a nil value, the plain linearization of the left child
does not end in a logical operator (as when such a stage has no left child). -/
def nilTokenLeftSafe (env : Env F) (parameters : Parameters F) : evaluationStage F → Bool
  | .nil => true
  | .node _ l r t =>
    (!t.Value.isNil || !endsInLogicalOp (plainLinearize env parameters l)) &&
      nilTokenLeftSafe env parameters l && nilTokenLeftSafe env parameters r

end Vocabulary

/-! ## A concrete instance of the collaborators

A small instance of `Env`, with `float64` restricted to the integers, used to run the
embedding on concrete inputs. Its planner and evaluator cover one-token expressions and
`a op b` for the operators `+`, `?` and `:` of the evaluator; its lexer covers the textual
forms of the values these produce; on every other input they report an error. -/

namespace Demo

/-- Method `TokenKind.String()`. -/
def kindString : TokenKind → String
  | .UNKNOWN => "UNKNOWN"
  | .PREFIX => "PREFIX"
  | .NUMERIC => "NUMERIC"
  | .BOOLEAN => "BOOLEAN"
  | .STRING => "STRING"
  | .PATTERN => "PATTERN"
  | .TIME => "TIME"
  | .VARIABLE => "VARIABLE"
  | .FUNCTION => "FUNCTION"
  | .SEPARATOR => "SEPARATOR"
  | .ACCESSOR => "ACCESSOR"
  | .COMPARATOR => "COMPARATOR"
  | .LOGICALOP => "LOGICALOP"
  | .MODIFIER => "MODIFIER"
  | .CLAUSE => "CLAUSE"
  | .CLAUSE_CLOSE => "CLAUSE_CLOSE"
  | .TERNARY => "TERNARY"

/-- Table `ternarySymbols`. -/
def ternarySymbols (s : String) : OperatorSymbol :=
  if s = "?" then .TERNARY_TRUE
  else if s = ":" then .TERNARY_FALSE
  else if s = "??" then .COALESCE
  else .other 0

/-- Table `prefixSymbols`. -/
def prefixSymbols (s : String) : OperatorSymbol :=
  if s = "!" then .INVERT
  else if s = "-" then .other 1
  else if s = "~" then .other 2
  else .other 0

/-- Table `modifierSymbols`. -/
def modifierSymbols (s : String) : OperatorSymbol :=
  if s = "**" then .EXPONENT
  else if s = "%" then .MODULUS
  else if s = "+" then .other 3
  else if s = "-" then .other 4
  else if s = "*" then .other 5
  else if s = "/" then .other 6
  else .other 0

/-- Decimal digits of a natural number, most significant first. -/
def digits : Nat → Nat → List Char
  | 0, _ => []
  | fuel + 1, n =>
    if n < 10 then [Char.ofNat (48 + n)]
    else digits fuel (n / 10) ++ [Char.ofNat (48 + n % 10)]

/-- The decimal text of an integer, which is the `%g` text of an integral `float64` of
magnitude below one million. -/
def sprintG (f : Int) : String :=
  if f < 0 then "-" ++ String.mk (digits (f.natAbs + 1) f.natAbs)
  else String.mk (digits (f.natAbs + 1) f.natAbs)

/-- The `%v` text of a value. -/
def sprintV : Value Int → String
  | .nil => "<nil>"
  | .bool b => if b then "true" else "false"
  | .str s => s
  | .num f => sprintG f
  | .pattern src => src
  | .time t => sprintG t

/-- The `%s` text of a value. -/
def sprintS : Value Int → String
  | .nil => "%!s(<nil>)"
  | .bool b => if b then "%!s(bool=true)" else "%!s(bool=false)"
  | .str s => s
  | .num f => "%!s(float64=" ++ sprintG f ++ ")"
  | .pattern src => src
  | .time t => sprintG t

/-- Value of a numeral given as a list of digit characters. -/
def readDigits : List Char → Nat → Option Nat
  | [], acc => some acc
  | c :: cs, acc =>
    if 48 ≤ c.toNat ∧ c.toNat ≤ 57 then readDigits cs (acc * 10 + (c.toNat - 48)) else none

/-- The lexer on the textual form of a boolean or of a non-negative integer. -/
def parseTokens (text : String) : Option (List (ExpressionToken Int)) :=
  if text = "true" then some [⟨.BOOLEAN, .bool true⟩]
  else if text = "false" then some [⟨.BOOLEAN, .bool false⟩]
  else
    match text.data with
    | [] => none
    | cs =>
      match readDigits cs 0 with
      | some n => some [⟨.NUMERIC, .num n⟩]
      | none => none

/-- A literal or variable token. -/
def isOperand (t : ExpressionToken Int) : Bool :=
  t.Kind == .NUMERIC || t.Kind == .BOOLEAN || t.Kind == .VARIABLE

/-- A binary operator token of the instance: `+`, `?` or `:`. -/
def isOperator (t : ExpressionToken Int) : Bool :=
  (t.Kind == .MODIFIER && t.Value == .str "+") ||
  (t.Kind == .TERNARY && (t.Value == .str "?" || t.Value == .str ":"))

/-- The planner on `a` and on `a op b`. -/
def NewEvaluableExpressionFromTokens :
    List (ExpressionToken Int) → Option (EvaluableExpression Int)
  | [a] =>
    if isOperand a then some ⟨"", .node (.other 0) .nil .nil a⟩ else none
  | [a, op, b] =>
    if isOperand a && isOperator op && isOperand b then
      some ⟨"", .node (.other 0) (.node (.other 0) .nil .nil a) (.node (.other 0) .nil .nil b) op⟩
    else none
  | _ => none

/-- The evaluator on the stages of the planner above: a literal is its value, a variable
its binding (an error when unbound), `+` adds two numbers, `?` yields its right operand
when the left one is true and nil otherwise, `:` yields its left operand unless it is nil. -/
def evalStage (parameters : Parameters Int) : evaluationStage Int → Option (Value Int)
  | .nil => none
  | .node _ .nil .nil t =>
    match t.Kind, t.Value with
    | .NUMERIC, .num f => some (.num f)
    | .BOOLEAN, .bool b => some (.bool b)
    | .VARIABLE, .str name => parameters name
    | _, _ => none
  | .node _ l r t =>
    match evalStage parameters l, evalStage parameters r, t.Kind, t.Value with
    | some (.num a), some (.num b), .MODIFIER, .str "+" => some (.num (a + b))
    | some (.bool c), some v, .TERNARY, .str "?" => some (if c then v else .nil)
    | some a, some b, .TERNARY, .str ":" => some (if a.isNil then b else a)
    | _, _, _, _ => none

/-- The collaborators of the instance. -/
def env : Env Int where
  NewEvaluableExpressionFromTokens := NewEvaluableExpressionFromTokens
  Evaluate := fun e parameters => evalStage parameters e.evaluationStages
  parseTokens := parseTokens
  sprintV := sprintV
  sprintS := sprintS
  sprintG := sprintG
  formatTime := fun t _ => sprintG t
  kindString := kindString
  ternarySymbols := ternarySymbols
  prefixSymbols := prefixSymbols
  modifierSymbols := modifierSymbols
  andString := "&&"

/-- A childless stage carrying a token. -/
def leaf (t : ExpressionToken Int) : evaluationStage Int :=
  .node (.other 0) .nil .nil t

/-- An operator stage. -/
def binary (symbol : OperatorSymbol) (l : evaluationStage Int) (t : ExpressionToken Int)
    (r : evaluationStage Int) : evaluationStage Int :=
  .node symbol l r t

/-- The literal `true`. -/
def tTrue : ExpressionToken Int := ⟨.BOOLEAN, .bool true⟩

/-- A numeric literal. -/
def tNum (n : Int) : ExpressionToken Int := ⟨.NUMERIC, .num n⟩

/-- A variable reference. -/
def tVar (name : String) : ExpressionToken Int := ⟨.VARIABLE, .str name⟩

/-- The operator `&&`. -/
def tAnd : ExpressionToken Int := ⟨.LOGICALOP, .str "&&"⟩

/-- The operator `||`. -/
def tOr : ExpressionToken Int := ⟨.LOGICALOP, .str "||"⟩

/-- A comparator. -/
def tCmp (s : String) : ExpressionToken Int := ⟨.COMPARATOR, .str s⟩

/-- A modifier. -/
def tMod (s : String) : ExpressionToken Int := ⟨.MODIFIER, .str s⟩

/-- A ternary operator. -/
def tTern (s : String) : ExpressionToken Int := ⟨.TERNARY, .str s⟩

/-- The operator `!`. -/
def tNot : ExpressionToken Int := ⟨.PREFIX, .str "!"⟩

/-- The empty binding map. -/
def noBindings : Parameters Int := fun _ => none

/-- The tree of `x > 1`. -/
def xGt1 : evaluationStage Int :=
  binary (.other 7) (leaf (tVar "x")) (tCmp ">") (leaf (tNum 1))

/-- The words of a text, split at the spaces. -/
def splitSpaces : List Char → List (List Char)
  | [] => [[]]
  | c :: cs =>
    if c = ' ' then [] :: splitSpaces cs
    else
      match splitSpaces cs with
      | w :: ws => (c :: w) :: ws
      | [] => [[c]]

/-- The token of one word: a boolean, the modifier `+`, or a non-negative integer. -/
def lexWord (w : List Char) : Option (ExpressionToken Int) :=
  if w = "true".data then some ⟨.BOOLEAN, .bool true⟩
  else if w = "false".data then some ⟨.BOOLEAN, .bool false⟩
  else if w = "+".data then some ⟨.MODIFIER, .str "+"⟩
  else
    match w with
    | [] => none
    | cs =>
      match readDigits cs 0 with
      | some n => some ⟨.NUMERIC, .num n⟩
      | none => none

/-- The tokens of a list of words, an error when a word has no token. -/
def lexWords : List (List Char) → Option (List (ExpressionToken Int))
  | [] => some []
  | w :: ws =>
    match lexWord w, lexWords ws with
    | some t, some ts => some (t :: ts)
    | _, _ => none

/-- A lexer that also covers texts of several words separated by one space, such as the
text `2 + 3` of a string value. -/
def parseTokensWords (text : String) : Option (List (ExpressionToken Int)) :=
  lexWords (splitSpaces text.data)

/-- The collaborators of the instance, with the lexer of several words. -/
def envWords : Env Int where
  NewEvaluableExpressionFromTokens := NewEvaluableExpressionFromTokens
  Evaluate := fun e parameters => evalStage parameters e.evaluationStages
  parseTokens := parseTokensWords
  sprintV := sprintV
  sprintS := sprintS
  sprintG := sprintG
  formatTime := fun t _ => sprintG t
  kindString := kindString
  ternarySymbols := ternarySymbols
  prefixSymbols := prefixSymbols
  modifierSymbols := modifierSymbols
  andString := "&&"

/-- The binding of `x` to the string `2 + 3`. -/
def xIsText : Parameters Int := fun name => if name = "x" then some (.str "2 + 3") else none

/-- The token of one word for the lexer of names: the operator `&&`, a name made of
lower-case letters, or a token of `lexWord`. -/
def lexWordName (w : List Char) : Option (ExpressionToken Int) :=
  if w = "&&".data then some ⟨.LOGICALOP, .str "&&"⟩
  else if w ≠ [] ∧ w.all (fun c => decide (97 ≤ c.toNat ∧ c.toNat ≤ 122)) = true
      ∧ w ≠ "true".data ∧ w ≠ "false".data then
    some ⟨.VARIABLE, .str (String.mk w)⟩
  else lexWord w

/-- The tokens of a list of words for the lexer of names. -/
def lexWordsNames : List (List Char) → Option (List (ExpressionToken Int))
  | [] => some []
  | w :: ws =>
    match lexWordName w, lexWordsNames ws with
    | some t, some ts => some (t :: ts)
    | _, _ => none

/-- A lexer that also covers names and the operator `&&`, and returns the tokens of a
text word by word, such as `a` and `&&` for the text `a &&` of a string value. -/
def parseTokensNames (text : String) : Option (List (ExpressionToken Int)) :=
  lexWordsNames (splitSpaces text.data)

/-- The collaborators of the instance, with the lexer of names. -/
def envNames : Env Int where
  NewEvaluableExpressionFromTokens := NewEvaluableExpressionFromTokens
  Evaluate := fun e parameters => evalStage parameters e.evaluationStages
  parseTokens := parseTokensNames
  sprintV := sprintV
  sprintS := sprintS
  sprintG := sprintG
  formatTime := fun t _ => sprintG t
  kindString := kindString
  ternarySymbols := ternarySymbols
  prefixSymbols := prefixSymbols
  modifierSymbols := modifierSymbols
  andString := "&&"

/-- The binding of `x` to the string `a &&`. -/
def xIsAnd : Parameters Int := fun name => if name = "x" then some (.str "a &&") else none

/-- A stage with a nil-valued token whose left child is the tree of `true ? x` and whose
right child is the literal `true`; no stage has a logical operator as its token. -/
def foldedAnd : evaluationStage Int :=
  .node (.other 11)
    (binary (.other 10) (leaf tTrue) (tTern "?") (leaf (tVar "x")))
    (leaf tTrue) ⟨.UNKNOWN, .nil⟩

end Demo

/-! ## Elision lemmas -/

section ElisionLemmas

variable {F : Type}

theorem dropTrailingTrues_nil (env : Env F) (right : List (ExpressionToken F)) :
    dropTrailingTrues env [] right = .done ([], true) := by
  simp [dropTrailingTrues]

theorem dropTrailingTrues_and_true (env : Env F) (xs : List (ExpressionToken F)) :
    dropTrailingTrues env (xs ++ [⟨.LOGICALOP, .str env.andString⟩]) [⟨.BOOLEAN, .bool true⟩]
      = .done (xs, false) := by
  simp [dropTrailingTrues]

theorem dropLeadingTrues_true_and (env : Env F) :
    dropLeadingTrues env [⟨.BOOLEAN, .bool true⟩] ⟨.LOGICALOP, .str env.andString⟩
      = .done false := by
  simp [dropLeadingTrues, Value.isNil]

/-- On a left operand that is not the lone literal `true` (and not a lone boolean token with
a payload of another type), `dropLeadingTrues` keeps the operand. -/
theorem dropLeadingTrues_keep (env : Env F) (left : List (ExpressionToken F))
    (rootToken : ExpressionToken F)
    (hwt : ∀ v, left = [⟨.BOOLEAN, v⟩] → ∃ b, v = .bool b)
    (hne : left ≠ [⟨.BOOLEAN, .bool true⟩])
    (hroot : ∃ s, rootToken.Value = .str s) :
    dropLeadingTrues env left rootToken = .done true := by
  obtain ⟨s, hs⟩ := hroot
  unfold dropLeadingTrues
  by_cases hlen : left.length = 1
  · obtain ⟨t, rfl⟩ := List.length_eq_one.mp hlen
    obtain ⟨k, v⟩ := t
    by_cases hk : k = TokenKind.BOOLEAN
    · subst hk
      obtain ⟨b, rfl⟩ := hwt v rfl
      cases b
      · simp [hs, Value.isNil]
      · exact absurd rfl hne
    · simp [hs, Value.isNil, hk]
  · simp [hlen]

end ElisionLemmas


/-! ## The renderer reads only the date format of the expression -/

section RendererLemmas

variable {F : Type}

theorem findNextClientStringAux_format (env : Env F) (parameters : Parameters F)
    (e1 e2 : EvaluableExpression F) (h : e1.QueryDateFormat = e2.QueryDateFormat) :
    ∀ (fuel : Nat) (stream : tokenStream F) (transactions : expressionOutputStream),
      findNextClientStringAux env e1 parameters fuel stream transactions
        = findNextClientStringAux env e2 parameters fuel stream transactions := by
  intro fuel
  induction fuel with
  | zero => intro stream transactions; rfl
  | succ n ih =>
    intro stream transactions
    simp only [findNextClientStringAux, ih, h]

theorem renderLoop_format (env : Env F) (parameters : Parameters F)
    (e1 e2 : EvaluableExpression F) (h : e1.QueryDateFormat = e2.QueryDateFormat) :
    ∀ (fuel : Nat) (stream : tokenStream F) (transactions : expressionOutputStream),
      renderLoop env e1 parameters fuel stream transactions
        = renderLoop env e2 parameters fuel stream transactions := by
  intro fuel
  induction fuel with
  | zero => intro stream transactions; rfl
  | succ n ih =>
    intro stream transactions
    simp only [renderLoop, findNextClientString, ih,
      findNextClientStringAux_format env parameters e1 e2 h]

theorem renderTokens_format (env : Env F) (parameters : Parameters F)
    (e1 e2 : EvaluableExpression F) (h : e1.QueryDateFormat = e2.QueryDateFormat)
    (ret : List (ExpressionToken F)) :
    renderTokens env e1 parameters ret = renderTokens env e2 parameters ret := by
  simp only [renderTokens, renderLoop_format env parameters e1 e2 h]

end RendererLemmas

/-! ## One render step: progress and error propagation -/

section StepLemmas

variable {F : Type}

theorem tokenStream.next_eq_some {stream s1 : tokenStream F} {t : ExpressionToken F}
    (h : stream.next = some (t, s1)) :
    stream.tokens[stream.index]? = some t ∧ s1 = ⟨stream.tokens, stream.index + 1⟩ ∧
      stream.index < stream.tokens.length := by
  unfold tokenStream.next at h
  cases hg : stream.tokens[stream.index]? with
  | none => simp [hg] at h
  | some t0 =>
    simp [hg] at h
    obtain ⟨rfl, rfl⟩ := h
    refine ⟨rfl, rfl, ?_⟩
    exact (List.getElem?_eq_some.mp hg).1

theorem withOperand_done {r : Exec (Step F)} {k : String → String} {x : String}
    {e : Option String} {s1 : tokenStream F} {out1 : expressionOutputStream}
    (h : withOperand r k = .done (x, e, s1, out1)) :
    ∃ y, r = .done (y, e, s1, out1) ∧ (e = none → x = k y) ∧ (e ≠ none → x = "") := by
  unfold withOperand at h
  split at h <;> simp at h
  · obtain ⟨rfl, rfl, rfl, rfl⟩ := h
    exact ⟨_, rfl, fun _ => rfl, fun h => absurd rfl h⟩
  · obtain ⟨rfl, rfl, rfl, rfl⟩ := h
    exact ⟨_, rfl, fun h => by simp at h, fun _ => rfl⟩

theorem tokenStream.next_rewind {stream s1 : tokenStream F} {t : ExpressionToken F}
    (h : stream.next = some (t, s1)) : s1.rewind = stream := by
  obtain ⟨_, rfl, _⟩ := tokenStream.next_eq_some h
  simp [tokenStream.rewind]

theorem StepDone.base (env : Env F) {stream s1 : tokenStream F} {tok : ExpressionToken F}
    {x : String} {e : Option String}
    (hget : stream.tokens[stream.index]? = some tok)
    (hlt : stream.index < stream.tokens.length)
    (hs1 : s1 = ⟨stream.tokens, stream.index + 1⟩)
    (hx : e ≠ none → x = "")
    (ht : e = none → isTernaryElse env tok = false) :
    StepDone env stream x e s1 := by
  subst hs1
  refine ⟨rfl, Nat.lt_succ_self _, hlt, hx, ?_⟩
  intro he i t h1 h2 h3
  have hi : i = stream.index := by simp at h2; omega
  subst hi
  rw [hget] at h3
  cases h3
  exact ht he

theorem StepDone.operand (env : Env F) {stream s0 s1 : tokenStream F}
    {tok : ExpressionToken F} {x y : String} {e : Option String}
    (hget : stream.tokens[stream.index]? = some tok)
    (hs0 : s0 = ⟨stream.tokens, stream.index + 1⟩)
    (ht : isTernaryElse env tok = false)
    (inner : StepDone env s0 y e s1)
    (hx : e ≠ none → x = "") :
    StepDone env stream x e s1 := by
  subst hs0
  obtain ⟨h1, h2, h3, _, h5⟩ := inner
  simp only at h1 h2 h3 h5
  refine ⟨h1, by omega, h3, hx, ?_⟩
  · intro he i t hi1 hi2 hi3
    by_cases hi : i = stream.index
    · subst hi
      rw [hget] at hi3
      cases hi3
      exact ht
    · exact h5 he i t (by omega) hi2 hi3

theorem findNextClientStringAux_done (env : Env F) (expression : EvaluableExpression F)
    (parameters : Parameters F) :
    ∀ (fuel : Nat) (stream : tokenStream F) (transactions : expressionOutputStream)
      (x : String) (e : Option String) (s1 : tokenStream F) (out1 : expressionOutputStream),
      findNextClientStringAux env expression parameters fuel stream transactions
        = .done (x, e, s1, out1) →
      StepDone env stream x e s1 := by
  intro fuel
  induction fuel with
  | zero => intro stream transactions x e s1 out1 h; simp [findNextClientStringAux] at h
  | succ n ih =>
    intro stream transactions x e s1 out1 h
    rw [findNextClientStringAux] at h
    cases hn : stream.next with
    | none => simp [hn] at h
    | some p =>
      obtain ⟨tok, s0⟩ := p
      obtain ⟨hget, hs0, hlt⟩ := tokenStream.next_eq_some hn
      simp only [hn] at h
      obtain ⟨k, v⟩ := tok
      cases k <;> cases v <;> simp only [] at h
      all_goals try (repeat' split at h)
      all_goals first
        | (cases h; done)
        | (simp only [Exec.done.injEq, Prod.mk.injEq] at h
           obtain ⟨rfl, rfl, rfl, rfl⟩ := h
           refine StepDone.base env hget hlt hs0 ?_ ?_ <;> simp_all [isTernaryElse])
        | (obtain ⟨y, hr, _, hx⟩ := withOperand_done h
           have hrw : _ = s0 := tokenStream.next_rewind (by assumption)
           rw [hrw] at hr
           refine StepDone.operand env hget hs0 ?_ (ih _ _ _ _ _ _ hr) hx
           simp_all [isTernaryElse])
        | (obtain ⟨y, hr, _, hx⟩ := withOperand_done h
           refine StepDone.operand env hget hs0 ?_ (ih _ _ _ _ _ _ hr) hx
           simp_all [isTernaryElse])

end StepLemmas

/-! ## The render loop -/

section LoopLemmas

variable {F : Type}

theorem findNextClientString_done (env : Env F) (expression : EvaluableExpression F)
    (parameters : Parameters F) {stream s1 : tokenStream F}
    {transactions out1 : expressionOutputStream} {x : String} {e : Option String}
    (h : findNextClientString env expression stream transactions parameters
      = .done (x, e, s1, out1)) :
    StepDone env stream x e s1 :=
  findNextClientStringAux_done env expression parameters _ _ _ _ _ _ _ h

theorem withOperand_fuel {r : Exec (Step F)} {k : String → String}
    (hr : r ≠ .outOfFuel) (h : withOperand r k = .outOfFuel) : False := by
  unfold withOperand at h
  split at h <;> simp_all

/-- With fuel for every remaining token, a render step does not run out of fuel. -/
theorem findNextClientStringAux_fuel (env : Env F) (expression : EvaluableExpression F)
    (parameters : Parameters F) :
    ∀ (fuel : Nat) (stream : tokenStream F) (transactions : expressionOutputStream),
      stream.tokens.length - stream.index + 1 ≤ fuel →
      findNextClientStringAux env expression parameters fuel stream transactions
        ≠ .outOfFuel := by
  intro fuel
  induction fuel with
  | zero => intro stream transactions h; omega
  | succ n ih =>
    intro stream transactions hfuel h
    rw [findNextClientStringAux] at h
    cases hn : stream.next with
    | none => simp [hn] at h
    | some p =>
      obtain ⟨tok, s0⟩ := p
      obtain ⟨hget, hs0, hlt⟩ := tokenStream.next_eq_some hn
      have hs0fuel : s0.tokens.length - s0.index + 1 ≤ n := by subst hs0; simp; omega
      simp only [hn] at h
      obtain ⟨k, v⟩ := tok
      cases k <;> cases v <;> simp only [] at h
      all_goals try (repeat' split at h)
      all_goals first
        | cases h
        | (have hrw : _ = s0 := tokenStream.next_rewind (by assumption)
           rw [hrw] at h
           exact withOperand_fuel (ih _ _ hs0fuel) h)
        | exact withOperand_fuel (ih _ _ hs0fuel) h

theorem findNextClientString_fuel (env : Env F) (expression : EvaluableExpression F)
    (parameters : Parameters F) (stream : tokenStream F)
    (transactions : expressionOutputStream) :
    findNextClientString env expression stream transactions parameters ≠ .outOfFuel :=
  findNextClientStringAux_fuel env expression parameters _ _ _ (le_refl _)

/-- The loop does not depend on the fuel once there is fuel for every remaining token. -/
theorem renderLoop_fuel_eq (env : Env F) (expression : EvaluableExpression F)
    (parameters : Parameters F) :
    ∀ (fuel1 fuel2 : Nat) (stream : tokenStream F) (transactions : expressionOutputStream),
      stream.tokens.length - stream.index + 1 ≤ fuel1 →
      stream.tokens.length - stream.index + 1 ≤ fuel2 →
      renderLoop env expression parameters fuel1 stream transactions
        = renderLoop env expression parameters fuel2 stream transactions := by
  intro fuel1
  induction fuel1 with
  | zero => intro fuel2 stream transactions h; omega
  | succ n ih =>
    intro fuel2 stream transactions h1 h2
    obtain ⟨m, rfl⟩ : ∃ m, fuel2 = m + 1 := ⟨fuel2 - 1, by omega⟩
    simp only [renderLoop]
    by_cases hnext : stream.hasNext = true
    · simp only [hnext, if_true]
      cases hstep : findNextClientString env expression stream transactions parameters with
      | panic => rfl
      | outOfFuel => rfl
      | done a =>
        obtain ⟨x, e, s1, out1⟩ := a
        cases e with
        | some err => rfl
        | none =>
          obtain ⟨ht, hlt, hle, _, _⟩ := findNextClientString_done env expression parameters hstep
          simp only
          apply ih <;> rw [ht] <;> omega
    · simp [hnext]

/-- With fuel for every remaining token, the loop does not run out of fuel. -/
theorem renderLoop_fuel (env : Env F) (expression : EvaluableExpression F)
    (parameters : Parameters F) :
    ∀ (fuel : Nat) (stream : tokenStream F) (transactions : expressionOutputStream),
      stream.tokens.length - stream.index + 1 ≤ fuel →
      renderLoop env expression parameters fuel stream transactions ≠ .outOfFuel := by
  intro fuel
  induction fuel with
  | zero => intro stream transactions h; omega
  | succ n ih =>
    intro stream transactions h1
    simp only [renderLoop]
    by_cases hnext : stream.hasNext = true
    · simp only [hnext, if_true]
      cases hstep : findNextClientString env expression stream transactions parameters with
      | panic => simp
      | outOfFuel => exact absurd hstep (findNextClientString_fuel env expression parameters _ _)
      | done a =>
        obtain ⟨x, e, s1, out1⟩ := a
        cases e with
        | some err => simp
        | none =>
          obtain ⟨ht, hlt, hle, _, _⟩ := findNextClientString_done env expression parameters hstep
          simp only
          apply ih; rw [ht]; omega
    · simp [hnext]

/-- An error of the loop comes with the empty string. -/
theorem renderLoop_error (env : Env F) (expression : EvaluableExpression F)
    (parameters : Parameters F) :
    ∀ (fuel : Nat) (stream : tokenStream F) (transactions : expressionOutputStream)
      (str err : String),
      renderLoop env expression parameters fuel stream transactions = .done (str, some err) →
      str = "" := by
  intro fuel
  induction fuel with
  | zero => intro stream transactions str err h; simp [renderLoop] at h
  | succ n ih =>
    intro stream transactions str err h
    simp only [renderLoop] at h
    by_cases hnext : stream.hasNext = true
    · simp only [hnext, if_true] at h
      cases hstep : findNextClientString env expression stream transactions parameters with
      | panic => simp [hstep] at h
      | outOfFuel => simp [hstep] at h
      | done a =>
        obtain ⟨x, e, s1, out1⟩ := a
        cases e with
        | some err1 => simp [hstep] at h; exact h.1.symm
        | none => simp only [hstep] at h; exact ih _ _ _ _ h
    · simp [hnext] at h

/-- A string returned by the loop was rendered without reading any else-branch token. -/
theorem renderLoop_string (env : Env F) (expression : EvaluableExpression F)
    (parameters : Parameters F) :
    ∀ (fuel : Nat) (stream : tokenStream F) (transactions : expressionOutputStream)
      (str : String),
      renderLoop env expression parameters fuel stream transactions = .done (str, none) →
      ∀ i t, stream.index ≤ i → stream.tokens[i]? = some t → isTernaryElse env t = false := by
  intro fuel
  induction fuel with
  | zero => intro stream transactions str h; simp [renderLoop] at h
  | succ n ih =>
    intro stream transactions str h i t hi hget
    simp only [renderLoop] at h
    by_cases hnext : stream.hasNext = true
    · simp only [hnext, if_true] at h
      cases hstep : findNextClientString env expression stream transactions parameters with
      | panic => simp [hstep] at h
      | outOfFuel => simp [hstep] at h
      | done a =>
        obtain ⟨x, e, s1, out1⟩ := a
        cases e with
        | some err1 => simp [hstep] at h
        | none =>
          simp only [hstep] at h
          obtain ⟨ht, hlt, hle, _, hno⟩ :=
            findNextClientString_done env expression parameters hstep
          by_cases hlt1 : i < s1.index
          · exact hno rfl i t hi hlt1 hget
          · exact ih _ _ _ h i t (by omega) (by rw [ht]; exact hget)
    · simp [tokenStream.hasNext] at hnext
      have : stream.tokens[i]? = none := List.getElem?_eq_none (by omega)
      rw [this] at hget
      cases hget

/-- The loop started at a state continues as the loop started at any state it reaches. -/
theorem renderLoop_reach (env : Env F) (expression : EvaluableExpression F)
    (parameters : Parameters F) {s s2 : tokenStream F} {out out2 : expressionOutputStream}
    (h : LoopReach env expression parameters s out s2 out2) :
    s2.tokens = s.tokens ∧ s.index ≤ s2.index ∧
    ∀ fuel, s.tokens.length - s.index + 1 ≤ fuel →
      renderLoop env expression parameters fuel s out
        = renderLoop env expression parameters (s2.tokens.length - s2.index + 1) s2 out2 := by
  induction h with
  | here s out =>
    refine ⟨rfl, le_refl _, ?_⟩
    intro fuel hfuel
    exact renderLoop_fuel_eq env expression parameters _ _ _ _ hfuel (le_refl _)
  | step hnext hstep hrest ih =>
    rename_i s s1 s2 out out1 out2 transaction
    obtain ⟨ht, hlt, hle, _, _⟩ := findNextClientString_done env expression parameters hstep
    obtain ⟨ih1, ih2, ih3⟩ := ih
    refine ⟨by rw [ih1, ht], by omega, ?_⟩
    intro fuel hfuel
    obtain ⟨m, rfl⟩ : ∃ m, fuel = m + 1 := ⟨fuel - 1, by omega⟩
    simp only [renderLoop, hnext, if_true, hstep]
    apply ih3
    rw [ht]; omega

/-- At an else-branch token a render step returns the unsupported-feature error. -/
theorem findNextClientString_else (env : Env F) (expression : EvaluableExpression F)
    (parameters : Parameters F) (stream : tokenStream F)
    (transactions : expressionOutputStream) (t : ExpressionToken F)
    (hget : stream.tokens[stream.index]? = some t) (helse : isTernaryElse env t = true) :
    findNextClientString env expression stream transactions parameters
      = .done ("", some ternaryUnsupported, ⟨stream.tokens, stream.index + 1⟩, transactions) := by
  obtain ⟨k, v⟩ := t
  cases k <;> cases v <;> simp [isTernaryElse] at helse
  simp [findNextClientString, findNextClientStringAux, tokenStream.next, hget, helse]

end LoopLemmas

/-! ## Tokens rendered on their own -/

section PlainLemmas

variable {F : Type}

theorem findNextClientStringAux_plain (env : Env F) (expression : EvaluableExpression F)
    (parameters : Parameters F) (fuel : Nat) (stream : tokenStream F)
    (transactions : expressionOutputStream) (t : ExpressionToken F) (X : String)
    (hget : stream.tokens[stream.index]? = some t)
    (hplain : plainFragment env expression parameters t = some X) :
    findNextClientStringAux env expression parameters (fuel + 1) stream transactions
      = .done (X, none, ⟨stream.tokens, stream.index + 1⟩, transactions) := by
  obtain ⟨k, v⟩ := t
  cases k <;> cases v <;> simp only [plainFragment] at hplain <;>
    (try split at hplain) <;> cases hplain <;>
    simp_all [findNextClientStringAux, tokenStream.next]

theorem findNextClientString_plain (env : Env F) (expression : EvaluableExpression F)
    (parameters : Parameters F) (stream : tokenStream F)
    (transactions : expressionOutputStream) (t : ExpressionToken F) (X : String)
    (hget : stream.tokens[stream.index]? = some t)
    (hplain : plainFragment env expression parameters t = some X) :
    findNextClientString env expression stream transactions parameters
      = .done (X, none, ⟨stream.tokens, stream.index + 1⟩, transactions) :=
  findNextClientStringAux_plain env expression parameters _ stream transactions t X hget hplain

theorem renderTokens_single_plain (env : Env F) (expression : EvaluableExpression F)
    (parameters : Parameters F) (t : ExpressionToken F) (X : String)
    (hplain : plainFragment env expression parameters t = some X) :
    renderTokens env expression parameters [t] = .done (X, none) := by
  have h := findNextClientString_plain env expression parameters ⟨[t], 0⟩ ⟨[]⟩ t X rfl hplain
  simp [renderTokens, renderLoop, newTokenStream, tokenStream.hasNext, h,
    expressionOutputStream.add, expressionOutputStream.createString, String.intercalate,
    String.intercalate.go]

theorem renderTokens_single_panic (env : Env F) (expression : EvaluableExpression F)
    (parameters : Parameters F) (t : ExpressionToken F)
    (hk : isOperandKind t.Kind = true)
    (hplain : plainFragment env expression parameters t = none) :
    renderTokens env expression parameters [t] = .panic := by
  obtain ⟨k, v⟩ := t
  cases k <;> simp [isOperandKind] at hk <;> cases v <;>
    simp only [plainFragment] at hplain <;> (try split at hplain) <;> (try cases hplain) <;>
    simp [renderTokens, renderLoop, newTokenStream, tokenStream.hasNext, findNextClientString,
      findNextClientStringAux, tokenStream.next]

/-- A literal or variable token that renders alone to `X` has the plain fragment `X`. -/
theorem plainFragment_of_renderTokens (env : Env F) (expression : EvaluableExpression F)
    (parameters : Parameters F) (t : ExpressionToken F) (X : String)
    (hk : isOperandKind t.Kind = true)
    (h : renderTokens env expression parameters [t] = .done (X, none)) :
    plainFragment env expression parameters t = some X := by
  cases hp : plainFragment env expression parameters t with
  | none =>
    rw [renderTokens_single_panic env expression parameters t hk hp] at h
    cases h
  | some Y =>
    rw [renderTokens_single_plain env expression parameters t Y hp] at h
    simp at h
    rw [h]

theorem unrecognizedToken_ne_ternaryUnsupported (env : Env F) (t : ExpressionToken F) :
    unrecognizedToken env t ≠ ternaryUnsupported := by
  intro h
  have := congrArg (fun s => s.data.head?) h
  simp [unrecognizedToken, ternaryUnsupported, String.data_append] at this

end PlainLemmas

/-! ## Trees without logical operators -/

section NoLogicalLemmas

variable {F : Type}

theorem dropLeadingTrues_not_logical (env : Env F) (left : List (ExpressionToken F))
    (rootToken : ExpressionToken F) (hk : rootToken.Kind ≠ TokenKind.LOGICALOP) :
    dropLeadingTrues env left rootToken = .done true := by
  unfold dropLeadingTrues
  split
  · rfl
  · split
    · simp [hk]
    · rename_i h _ hnone
      simp at h
      obtain ⟨t, rfl⟩ := List.length_eq_one.mp h.2
      cases hnone

theorem dropTrailingTrues_not_logical (env : Env F) (tokens right : List (ExpressionToken F))
    (h : endsInLogicalOp tokens = false) :
    dropTrailingTrues env tokens right = .done (tokens, true) := by
  unfold dropTrailingTrues
  split
  · rfl
  · rename_i hc
    simp at hc
    obtain ⟨r0, rfl⟩ := List.length_eq_one.mp hc.2
    cases hl : tokens.getLast? with
    | none =>
      have : tokens = [] := List.getLast?_eq_none_iff.mp hl
      rw [this] at hc
      simp at hc
    | some lastToken =>
      simp only [endsInLogicalOp, hl] at h
      simp [h]

theorem endsInLogicalOp_append_singleton (xs : List (ExpressionToken F))
    (t : ExpressionToken F) :
    endsInLogicalOp (xs ++ [t]) = (t.Kind == TokenKind.LOGICALOP) := by
  simp [endsInLogicalOp]

theorem endsInLogicalOp_append (xs ys : List (ExpressionToken F))
    (hx : endsInLogicalOp xs = false) (hy : endsInLogicalOp ys = false) :
    endsInLogicalOp (xs ++ ys) = false := by
  unfold endsInLogicalOp at *
  rw [List.getLast?_append]
  cases hys : ys.getLast? with
  | none => simpa [hys] using hx
  | some t => simpa [hys] using hy

theorem buildStage_in_order (env : Env F) (symbol : OperatorSymbol)
    (t : ExpressionToken F) (left right : List (ExpressionToken F))
    (hk : t.Kind ≠ TokenKind.LOGICALOP)
    (hl : t.Value.isNil = true → endsInLogicalOp left = false) :
    buildStage env symbol t left right = .done (inOrder symbol t left right) := by
  have h12 : endsInLogicalOp
      ((if symbol = OperatorSymbol.NOOP then [(⟨TokenKind.CLAUSE, .nil⟩ : ExpressionToken F)]
        else []) ++ left ++ (if t.Value.isNil then [] else [t])) = false := by
    cases hnil : t.Value.isNil with
    | false =>
      simp only [Bool.false_eq_true, if_false]
      rw [endsInLogicalOp_append_singleton]
      simpa using hk
    | true =>
      simp only [if_true, List.append_nil]
      apply endsInLogicalOp_append _ _ _ (hl hnil)
      split <;> simp [endsInLogicalOp]
  unfold buildStage
  simp only [dropLeadingTrues_not_logical env left t hk, if_true, Bool.and_true]
  have hret : (if (!t.Value.isNil) = true then
      (if symbol = OperatorSymbol.NOOP then [(⟨TokenKind.CLAUSE, .nil⟩ : ExpressionToken F)]
        else []) ++ left ++ [t]
      else (if symbol = OperatorSymbol.NOOP then [(⟨TokenKind.CLAUSE, .nil⟩ : ExpressionToken F)]
        else []) ++ left)
      = (if symbol = OperatorSymbol.NOOP then [(⟨TokenKind.CLAUSE, .nil⟩ : ExpressionToken F)]
        else []) ++ left ++ (if t.Value.isNil then [] else [t]) := by
    cases t.Value.isNil <;> simp
  rw [hret, dropTrailingTrues_not_logical env _ right h12]
  by_cases hs : symbol = OperatorSymbol.NOOP <;> simp [inOrder, hs]

theorem traverseStages_in_order (env : Env F) (parameters : Parameters F) :
    ∀ tree : evaluationStage F, noLogicalOp tree = true →
      nilTokenLeftSafe env parameters tree = true →
      traverseStages env parameters tree = .done (plainLinearize env parameters tree) := by
  intro tree
  induction tree with
  | nil => intro _ _; simp [traverseStages, plainLinearize]
  | node symbol l r t ihl ihr =>
    intro h hsafe
    simp only [noLogicalOp, Bool.and_eq_true, bne_iff_ne, ne_eq] at h
    simp only [nilTokenLeftSafe, Bool.and_eq_true, Bool.or_eq_true, Bool.not_eq_true'] at hsafe
    obtain ⟨⟨hk, hl⟩, hr⟩ := h
    obtain ⟨⟨hleft, sl⟩, sr⟩ := hsafe
    have hl2 : t.Value.isNil = true →
        endsInLogicalOp (plainLinearize env parameters l) = false := by
      intro hnil
      rcases hleft with h1 | h1
      · rw [hnil] at h1
        cases h1
      · exact h1
    simp only [traverseStages, ihl hl sl, ihr hr sr,
      buildStage_in_order env symbol t _ _ hk hl2, plainLinearize]

theorem noLogicalOp_of_mem_stagesOf (tree n : evaluationStage F) (hmem : n ∈ stagesOf tree)
    (h : noLogicalOp tree = true) : noLogicalOp n = true := by
  induction tree with
  | nil => simp [stagesOf] at hmem
  | node symbol l r t ihl ihr =>
    simp only [stagesOf, List.mem_cons, List.mem_append] at hmem
    have h0 := h
    simp only [noLogicalOp, Bool.and_eq_true] at h
    rcases hmem with rfl | hm | hm
    · exact h0
    · exact ihl hm h.1.2
    · exact ihr hm h.2

theorem nilTokenLeftSafe_of_mem_stagesOf (env : Env F) (parameters : Parameters F)
    (tree n : evaluationStage F) (hmem : n ∈ stagesOf tree)
    (h : nilTokenLeftSafe env parameters tree = true) :
    nilTokenLeftSafe env parameters n = true := by
  induction tree with
  | nil => simp [stagesOf] at hmem
  | node symbol l r t ihl ihr =>
    simp only [stagesOf, List.mem_cons, List.mem_append] at hmem
    have h0 := h
    simp only [nilTokenLeftSafe, Bool.and_eq_true] at h
    rcases hmem with rfl | hm | hm
    · exact h0
    · exact ihl hm h.1.2
    · exact ihr hm h.2

end NoLogicalLemmas

/-! ## Sequences of tokens rendered on their own -/

section PlainLoopLemmas

variable {F : Type}

theorem plainFragment_of_isSimpleToken (env : Env F) (expression : EvaluableExpression F)
    (parameters : Parameters F) (t : ExpressionToken F) (h : isSimpleToken env t = true) :
    plainFragment env expression parameters t = some (simpleFragment env parameters t) := by
  obtain ⟨k, v⟩ := t
  cases k <;> cases v <;> simp [isSimpleToken] at h <;>
    simp [plainFragment, simpleFragment]
  · split <;> rfl
  · rename_i s
    cases hs : env.modifierSymbols s <;> simp_all

/-- The loop renders a run of plain tokens one fragment per token. -/
theorem LoopReach.plain (env : Env F) (expression : EvaluableExpression F)
    (parameters : Parameters F) :
    ∀ (rest : List (ExpressionToken F)) (frags : List String) (pre : List (ExpressionToken F))
      (post : List (ExpressionToken F)) (acc : List String),
      List.Forall₂ (fun t x => plainFragment env expression parameters t = some x) rest frags →
      LoopReach env expression parameters ⟨pre ++ (rest ++ post), pre.length⟩ ⟨acc⟩
        ⟨pre ++ (rest ++ post), pre.length + rest.length⟩ ⟨acc ++ frags⟩ := by
  intro rest
  induction rest with
  | nil =>
    intro frags pre post acc h
    cases h
    simpa using LoopReach.here _ _
  | cons t ts ih =>
    intro frags pre post acc h
    cases h with
    | cons hx hrest =>
      rename_i x xs
      have hget : (pre ++ (t :: ts ++ post))[pre.length]? = some t := by
        rw [List.getElem?_append_right (le_refl _)]
        simp
      have hstep := findNextClientString_plain env expression parameters
        ⟨pre ++ (t :: ts ++ post), pre.length⟩ ⟨acc⟩ t x hget hx
      have hnext : (⟨pre ++ (t :: ts ++ post), pre.length⟩ : tokenStream F).hasNext = true := by
        simp [tokenStream.hasNext]
      have hrec := ih xs (pre ++ [t]) post (acc ++ [x]) hrest
      have e1 : pre ++ [t] ++ (ts ++ post) = pre ++ (t :: ts ++ post) := by simp
      have e2 : (pre ++ [t]).length + ts.length = pre.length + (t :: ts).length := by
        simp; omega
      have e3 : acc ++ [x] ++ xs = acc ++ x :: xs := by simp
      have e4 : (pre ++ [t]).length = pre.length + 1 := by simp
      rw [e1, e2, e3, e4] at hrec
      exact LoopReach.step hnext hstep hrec

/-- The string the loop returns once the stream is exhausted. -/
theorem renderLoop_at_end (env : Env F) (expression : EvaluableExpression F)
    (parameters : Parameters F) (tokens : List (ExpressionToken F)) (acc : List String)
    (fuel : Nat) :
    renderLoop env expression parameters (fuel + 1) ⟨tokens, tokens.length⟩ ⟨acc⟩
      = .done (" ".intercalate acc, none) := by
  simp [renderLoop, tokenStream.hasNext, expressionOutputStream.createString]

/-- Rendering a sequence of plain tokens gives the fragments joined by one space. -/
theorem renderTokens_plain (env : Env F) (expression : EvaluableExpression F)
    (parameters : Parameters F) (tokens : List (ExpressionToken F)) (frags : List String)
    (h : List.Forall₂ (fun t x => plainFragment env expression parameters t = some x)
      tokens frags) :
    renderTokens env expression parameters tokens = .done (" ".intercalate frags, none) := by
  have hreach := LoopReach.plain env expression parameters tokens frags [] [] [] h
  simp only [List.nil_append, List.append_nil, List.length_nil, Nat.zero_add] at hreach
  obtain ⟨_, _, hfuel⟩ := renderLoop_reach env expression parameters hreach
  have h2 := hfuel (tokens.length + 1) (by simp)
  simp only [Nat.sub_self, Nat.zero_add] at h2
  simp only [renderTokens, newTokenStream]
  rw [h2]
  exact renderLoop_at_end env expression parameters tokens frags 0

end PlainLoopLemmas

/-! ## Joining fragments -/

section JoinLemmas

theorem intercalate_go_append (s : String) :
    ∀ (xs : List String) (a b : String),
      String.intercalate.go (a ++ b) s xs = a ++ String.intercalate.go b s xs := by
  intro xs
  induction xs with
  | nil => intro a b; simp [String.intercalate.go]
  | cons x xs ih =>
    intro a b
    simp only [String.intercalate.go]
    rw [String.append_assoc a b s, String.append_assoc a (b ++ s) x, ih]

theorem intercalate_cons_cons (s x y : String) (ys : List String) :
    s.intercalate (x :: y :: ys) = x ++ s ++ s.intercalate (y :: ys) := by
  simp only [String.intercalate, String.intercalate.go]
  rw [String.append_assoc x s y, intercalate_go_append, intercalate_go_append,
    String.append_assoc]

theorem forall₂_map_of_forall {α β : Type} (P : α → β → Prop) (f : α → β) :
    ∀ xs : List α, (∀ x ∈ xs, P x (f x)) → List.Forall₂ P xs (xs.map f) := by
  intro xs
  induction xs with
  | nil => intro _; exact List.Forall₂.nil
  | cons x xs ih =>
    intro h
    exact List.Forall₂.cons (h x (List.mem_cons_self _ _))
      (ih (fun y hy => h y (List.mem_cons_of_mem _ hy)))

end JoinLemmas

/-! ## The elision functions under the token invariant -/

section TypedLemmas

variable {F : Type}

theorem tokenTyped_boolean (t : ExpressionToken F) (h : tokenTyped t = true)
    (hk : t.Kind = TokenKind.BOOLEAN) : ∃ b, t.Value = .bool b := by
  obtain ⟨k, v⟩ := t
  simp only at hk
  subst hk
  cases v <;> simp [tokenTyped] at h ⊢

theorem tokenTyped_logical (t : ExpressionToken F) (h : tokenTyped t = true)
    (hk : t.Kind = TokenKind.LOGICALOP) : ∃ s, t.Value = .str s := by
  obtain ⟨k, v⟩ := t
  simp only at hk
  subst hk
  cases v <;> simp [tokenTyped] at h ⊢

theorem tokenTyped_of_rootTyped (t : ExpressionToken F) (h : rootTyped t = true)
    (hnil : t.Value.isNil = false) : tokenTyped t = true := by
  simpa [rootTyped, hnil] using h

theorem dropLeadingTrues_done_false (env : Env F) (left : List (ExpressionToken F))
    (rootToken : ExpressionToken F)
    (h : dropLeadingTrues env left rootToken = .done false) :
    rootToken.Value.isNil = false ∧ rootToken.Kind = TokenKind.LOGICALOP ∧
      rootToken.Value = .str env.andString ∧ left = [⟨.BOOLEAN, .bool true⟩] := by
  unfold dropLeadingTrues at h
  repeat' split at h
  all_goals first
    | (cases h; done)
    | skip
  rename_i h1 _ left0 hhead h2 _ b hb h3 _ s hs h4
  simp only [Bool.or_eq_true, Bool.not_eq_true', beq_eq_false_iff_ne, ne_eq, not_or,
    Decidable.not_not, Bool.not_eq_false, beq_iff_eq, bne_iff_ne] at h1 h2 h3 h4
  obtain ⟨t, rfl⟩ := List.length_eq_one.mp h1.2
  simp only [List.head?_cons, Option.some.injEq] at hhead
  subst hhead
  obtain ⟨k, v⟩ := t
  simp only at h2 hb
  obtain ⟨h2a, h2b⟩ := h2
  subst h2b hb h3
  refine ⟨by simpa using h1.1, h2a, by rw [hs, h4], rfl⟩

theorem dropLeadingTrues_total (env : Env F) (left : List (ExpressionToken F))
    (rootToken : ExpressionToken F)
    (hl : ∀ t ∈ left, tokenTyped t = true) (hr : rootTyped rootToken = true) :
    ∃ b, dropLeadingTrues env left rootToken = .done b := by
  unfold dropLeadingTrues
  repeat' split
  all_goals first
    | exact ⟨_, rfl⟩
    | skip
  · rename_i h1 _ left0 hhead h2 _ b hb h3 _ hstr
    exfalso
    simp only [Bool.or_eq_true, Bool.not_eq_true', beq_eq_false_iff_ne, ne_eq, not_or,
      Decidable.not_not, Bool.not_eq_false, beq_iff_eq, bne_iff_ne] at h1 h2
    obtain ⟨s, hs⟩ := tokenTyped_logical rootToken
      (tokenTyped_of_rootTyped rootToken hr (by simpa using h1.1)) h2.1
    exact hstr s hs
  · rename_i h1 _ left0 hhead h2 _ hbool
    exfalso
    simp only [Bool.or_eq_true, Bool.not_eq_true', beq_eq_false_iff_ne, ne_eq, not_or,
      Decidable.not_not, Bool.not_eq_false, beq_iff_eq, bne_iff_ne] at h1 h2
    have hmem : left0 ∈ left := List.mem_of_mem_head? hhead
    obtain ⟨b, hb⟩ := tokenTyped_boolean left0 (hl left0 hmem) h2.2
    exact hbool b hb
  · rename_i h1 _ hhead
    exfalso
    simp only [Bool.or_eq_true, Bool.not_eq_true', beq_eq_false_iff_ne, ne_eq, not_or,
      Decidable.not_not] at h1
    obtain ⟨t, rfl⟩ := List.length_eq_one.mp h1.2
    cases hhead

theorem dropTrailingTrues_done (env : Env F) (tokens right ret : List (ExpressionToken F))
    (ok : Bool) (h : dropTrailingTrues env tokens right = .done (ret, ok)) :
    (ok = true ∧ ret = tokens) ∨
    (ok = false ∧ right = [⟨.BOOLEAN, .bool true⟩] ∧
      ∃ lastToken s, tokens.getLast? = some lastToken ∧
        lastToken.Kind = TokenKind.LOGICALOP ∧ lastToken.Value = .str s ∧
        ret = if s = env.andString then tokens.dropLast else tokens) := by
  unfold dropTrailingTrues at h
  repeat' split at h
  all_goals first
    | (cases h; done)
    | (simp only [Exec.done.injEq, Prod.mk.injEq] at h
       obtain ⟨rfl, rfl⟩ := h
       exact Or.inl ⟨rfl, rfl⟩)
    | skip
  all_goals
    rename_i h1 _ _ lastToken right0 hlast hhead h2 _ b hb h3 _ s hs h4
    simp only [Bool.or_eq_true, Bool.not_eq_true', beq_eq_false_iff_ne, ne_eq, not_or,
      Decidable.not_not, Bool.not_eq_false, beq_iff_eq, bne_iff_ne, decide_eq_false_iff_not,
      not_lt, not_le] at h1 h2 h3 h4
    obtain ⟨t, rfl⟩ := List.length_eq_one.mp h1.2
    simp only [List.head?_cons, Option.some.injEq] at hhead
    subst hhead
    obtain ⟨k, v⟩ := t
    simp only at h2 hb
    obtain ⟨h2a, h2b⟩ := h2
    subst h2b hb h3
    simp only [Exec.done.injEq, Prod.mk.injEq] at h
    obtain ⟨rfl, rfl⟩ := h
    refine Or.inr ⟨rfl, rfl, lastToken, s, hlast, h2a, hs, ?_⟩
    simp [h4]

theorem dropTrailingTrues_total (env : Env F) (tokens right : List (ExpressionToken F))
    (ht : ∀ t ∈ tokens, tokenTyped t = true) (hr : ∀ t ∈ right, tokenTyped t = true) :
    ∃ r, dropTrailingTrues env tokens right = .done r := by
  unfold dropTrailingTrues
  repeat' split
  all_goals first
    | exact ⟨_, rfl⟩
    | skip
  · rename_i h1 _ _ lastToken right0 hlast hhead h2 _ b hb h3 _ hstr
    exfalso
    simp only [Bool.or_eq_true, Bool.not_eq_true', beq_eq_false_iff_ne, ne_eq, not_or,
      Decidable.not_not, Bool.not_eq_false, beq_iff_eq, bne_iff_ne] at h2
    obtain ⟨s, hs⟩ := tokenTyped_logical lastToken
      (ht lastToken (List.mem_of_getLast?_eq_some hlast)) h2.1
    exact hstr s hs
  · rename_i h1 _ _ lastToken right0 hlast hhead h2 _ hbool
    exfalso
    simp only [Bool.or_eq_true, Bool.not_eq_true', beq_eq_false_iff_ne, ne_eq, not_or,
      Decidable.not_not, Bool.not_eq_false, beq_iff_eq, bne_iff_ne] at h2
    obtain ⟨b, hb⟩ := tokenTyped_boolean right0
      (hr right0 (List.mem_of_mem_head? hhead)) h2.2
    exact hbool b hb
  · rename_i h1 _ _ hnone
    exfalso
    simp only [Bool.or_eq_true, Bool.not_eq_true', beq_eq_false_iff_ne, ne_eq, not_or,
      Decidable.not_not, decide_eq_false_iff_not, not_lt, not_le, gt_iff_lt,
      decide_eq_true_eq] at h1
    obtain ⟨t, rfl⟩ := List.length_eq_one.mp h1.2
    cases hl : tokens.getLast? with
    | none =>
      have : tokens = [] := List.getLast?_eq_none_iff.mp hl
      rw [this] at h1
      simp at h1
    | some lastToken => exact hnone lastToken t hl rfl

/-- A leading token that is not a logical operator does not take part in the trailing
elision. -/
theorem dropTrailingTrues_cons (env : Env F) (c : ExpressionToken F)
    (tokens right : List (ExpressionToken F)) (hc : c.Kind ≠ TokenKind.LOGICALOP) :
    dropTrailingTrues env (c :: tokens) right
      = match dropTrailingTrues env tokens right with
        | .done (ret, ok) => .done (c :: ret, ok)
        | .panic => .panic
        | .outOfFuel => .outOfFuel := by
  by_cases hlen : right.length = 1
  · obtain ⟨r0, rfl⟩ := List.length_eq_one.mp hlen
    cases tokens with
    | nil => simp [dropTrailingTrues, hc]
    | cons t ts =>
      obtain ⟨lastToken, hl⟩ : ∃ lastToken, (t :: ts).getLast? = some lastToken :=
        ⟨_, List.getLast?_eq_getLast _ (by simp)⟩
      have hl2 : (c :: t :: ts).getLast? = some lastToken := by
        rw [List.getLast?_cons_cons, hl]
      by_cases hk : lastToken.Kind = TokenKind.LOGICALOP ∧ r0.Kind = TokenKind.BOOLEAN
      · cases hv : r0.Value with
        | bool b =>
          cases b <;> cases hlv : lastToken.Value <;>
            simp [dropTrailingTrues, hl, hl2, hk, hv, hlv]
          split <;> simp
        | nil => simp [dropTrailingTrues, hl, hl2, hk, hv]
        | str s => simp [dropTrailingTrues, hl, hl2, hk, hv]
        | num f => simp [dropTrailingTrues, hl, hl2, hk, hv]
        | pattern src => simp [dropTrailingTrues, hl, hl2, hk, hv]
        | time i => simp [dropTrailingTrues, hl, hl2, hk, hv]
      · have hk2 : ¬lastToken.Kind = TokenKind.LOGICALOP ∨ ¬r0.Kind = TokenKind.BOOLEAN := by
          by_cases h1 : lastToken.Kind = TokenKind.LOGICALOP
          · exact Or.inr (fun h2 => hk ⟨h1, h2⟩)
          · exact Or.inl h1
        simp [dropTrailingTrues, hl, hl2, hk2]
  · simp [dropTrailingTrues, hlen]

theorem buildStage_eq (env : Env F) (symbol : OperatorSymbol) (tok : ExpressionToken F)
    (left right : List (ExpressionToken F)) :
    buildStage env symbol tok left right
      = match dropLeadingTrues env left tok with
        | .done ok =>
          match dropTrailingTrues env
              (clauseOpen symbol ++ (if ok then left ++ operatorTokens tok else [])) right with
          | .done (ret, ok2) => .done ((if ok2 then ret ++ right else ret) ++ clauseClose symbol)
          | .panic => .panic
          | .outOfFuel => .outOfFuel
        | .panic => .panic
        | .outOfFuel => .outOfFuel := by
  unfold buildStage
  cases hd : dropLeadingTrues env left tok with
  | panic => rfl
  | outOfFuel => rfl
  | done ok =>
    have hret : (if (!tok.Value.isNil && ok) = true then
        (if ok = true then (if symbol = OperatorSymbol.NOOP
            then [(⟨TokenKind.CLAUSE, .nil⟩ : ExpressionToken F)] else []) ++ left
          else (if symbol = OperatorSymbol.NOOP
            then [(⟨TokenKind.CLAUSE, .nil⟩ : ExpressionToken F)] else [])) ++ [tok]
        else (if ok = true then (if symbol = OperatorSymbol.NOOP
            then [(⟨TokenKind.CLAUSE, .nil⟩ : ExpressionToken F)] else []) ++ left
          else (if symbol = OperatorSymbol.NOOP
            then [(⟨TokenKind.CLAUSE, .nil⟩ : ExpressionToken F)] else [])))
        = clauseOpen symbol ++ (if ok then left ++ operatorTokens tok else []) := by
      cases ok <;> cases hnil : tok.Value.isNil <;> simp [clauseOpen, operatorTokens, hnil]
    simp only [hret]
    cases dropTrailingTrues env
        (clauseOpen symbol ++ (if ok then left ++ operatorTokens tok else [])) right with
    | panic => rfl
    | outOfFuel => rfl
    | done a =>
      obtain ⟨ret, ok2⟩ := a
      by_cases hs : symbol = OperatorSymbol.NOOP <;> simp [clauseClose, hs]

theorem dropLeadingTrues_ne_outOfFuel (env : Env F) (left : List (ExpressionToken F))
    (tok : ExpressionToken F) : dropLeadingTrues env left tok ≠ .outOfFuel := by
  unfold dropLeadingTrues
  repeat' split
  all_goals simp

theorem dropTrailingTrues_ne_outOfFuel (env : Env F) (tokens right : List (ExpressionToken F)) :
    dropTrailingTrues env tokens right ≠ .outOfFuel := by
  unfold dropTrailingTrues
  repeat' split
  all_goals simp

theorem buildStage_ne_outOfFuel (env : Env F) (symbol : OperatorSymbol)
    (tok : ExpressionToken F) (left right : List (ExpressionToken F)) :
    buildStage env symbol tok left right ≠ .outOfFuel := by
  rw [buildStage_eq]
  cases hd : dropLeadingTrues env left tok with
  | panic => simp
  | outOfFuel => exact absurd hd (dropLeadingTrues_ne_outOfFuel env left tok)
  | done ok =>
    simp only
    cases ht : dropTrailingTrues env
        (clauseOpen symbol ++ (if ok then left ++ operatorTokens tok else [])) right with
    | panic => simp
    | outOfFuel => exact absurd ht (dropTrailingTrues_ne_outOfFuel env _ right)
    | done a => simp

theorem traverseStages_ne_outOfFuel (env : Env F) (parameters : Parameters F) :
    ∀ tree : evaluationStage F, traverseStages env parameters tree ≠ .outOfFuel := by
  intro tree
  induction tree with
  | nil => simp [traverseStages]
  | node symbol l r t ihl ihr =>
    simp only [traverseStages]
    cases hl : traverseStages env parameters l with
    | panic => simp
    | outOfFuel => exact absurd hl ihl
    | done left =>
      cases hr : traverseStages env parameters r with
      | panic => simp
      | outOfFuel => exact absurd hr ihr
      | done right =>
        simp only
        cases hb : buildStage env symbol t left right with
        | panic => simp
        | outOfFuel => exact absurd hb (buildStage_ne_outOfFuel env symbol t left right)
        | done ret => simp

/-- The sequence of a grouping stage is that of an operator stage between the two clause
tokens. -/
theorem buildStage_noop (env : Env F) (symbol : OperatorSymbol) (tok : ExpressionToken F)
    (left right : List (ExpressionToken F)) (hs : symbol ≠ OperatorSymbol.NOOP) :
    buildStage env OperatorSymbol.NOOP tok left right
      = match buildStage env symbol tok left right with
        | .done ret => .done (⟨TokenKind.CLAUSE, .nil⟩ :: ret ++ [⟨TokenKind.CLAUSE_CLOSE, .nil⟩])
        | .panic => .panic
        | .outOfFuel => .outOfFuel := by
  rw [buildStage_eq, buildStage_eq env symbol]
  cases hd : dropLeadingTrues env left tok with
  | panic => rfl
  | outOfFuel => rfl
  | done ok =>
    simp only [clauseOpen, clauseClose, hs, if_true, if_false, List.nil_append,
      List.singleton_append, List.append_nil]
    rw [dropTrailingTrues_cons env _ _ _ (by simp)]
    cases dropTrailingTrues env (if ok = true then left ++ operatorTokens tok else []) right with
    | panic => rfl
    | outOfFuel => rfl
    | done a =>
      obtain ⟨ret, ok2⟩ := a
      cases ok2 <;> simp

/-- An operator stage yields only tokens of its operands and its own token. -/
theorem buildStage_mem (env : Env F) (symbol : OperatorSymbol) (tok : ExpressionToken F)
    (left right ret : List (ExpressionToken F)) (hs : symbol ≠ OperatorSymbol.NOOP)
    (h : buildStage env symbol tok left right = .done ret) :
    ∀ t ∈ ret, t ∈ left ∨ (t = tok ∧ tok.Value.isNil = false) ∨ t ∈ right := by
  rw [buildStage_eq] at h
  cases hd : dropLeadingTrues env left tok with
  | panic => simp [hd] at h
  | outOfFuel => simp [hd] at h
  | done ok =>
    simp only [hd, clauseOpen, clauseClose, hs, if_false, List.nil_append, List.append_nil] at h
    cases ht : dropTrailingTrues env (if ok = true then left ++ operatorTokens tok else [])
        right with
    | panic => simp [ht] at h
    | outOfFuel => simp [ht] at h
    | done a =>
      obtain ⟨kept, ok2⟩ := a
      simp only [ht, Exec.done.injEq] at h
      have hkept : ∀ t ∈ kept, t ∈ left ∨ (t = tok ∧ tok.Value.isNil = false) := by
        intro t htk
        have hpre : kept <+: (if ok = true then left ++ operatorTokens tok else []) := by
          rcases dropTrailingTrues_done env _ right kept ok2 ht with
            ⟨_, rfl⟩ | ⟨_, _, lastToken, s, _, _, _, hret⟩
          · exact List.prefix_refl _
          · by_cases hsand : s = env.andString
            · rw [if_pos hsand] at hret
              rw [hret]
              exact List.dropLast_prefix _
            · rw [if_neg hsand] at hret
              rw [hret]
        have hm := hpre.subset htk
        cases ok with
        | false => simp at hm
        | true =>
          simp only [if_true, List.mem_append] at hm
          rcases hm with hm | hm
          · exact Or.inl hm
          · right
            unfold operatorTokens at hm
            split at hm
            · simp at hm
            · rename_i hnil
              simp only [List.mem_singleton] at hm
              exact ⟨hm, by simpa using hnil⟩
      intro t htr
      subst h
      cases ok2 with
      | false =>
        simp only [Bool.false_eq_true, if_false] at htr
        rcases hkept t htr with h1 | h1
        · exact Or.inl h1
        · exact Or.inr (Or.inl h1)
      | true =>
        simp only [if_true, List.mem_append] at htr
        rcases htr with h1 | h1
        · rcases hkept t h1 with h2 | h2
          · exact Or.inl h2
          · exact Or.inr (Or.inl h2)
        · exact Or.inr (Or.inr h1)

end TypedLemmas

/-! ## Totality of the walker under the token invariant -/

section TotalLemmas

variable {F : Type}

theorem dropTrailingTrues_initial (env : Env F) (tokens right ret : List (ExpressionToken F))
    (ok : Bool) (h : dropTrailingTrues env tokens right = .done (ret, ok)) :
    ret <+: tokens := by
  rcases dropTrailingTrues_done env tokens right ret ok h with
    ⟨_, rfl⟩ | ⟨_, _, lastToken, s, _, _, _, hret⟩
  · exact List.prefix_refl _
  · by_cases hs : s = env.andString
    · rw [if_pos hs] at hret
      rw [hret]
      exact List.dropLast_prefix _
    · rw [if_neg hs] at hret
      rw [hret]

theorem buildStage_typed (env : Env F) (symbol : OperatorSymbol) (tok : ExpressionToken F)
    (left right : List (ExpressionToken F))
    (hl : ∀ t ∈ left, tokenTyped t = true) (hr : ∀ t ∈ right, tokenTyped t = true)
    (ht : rootTyped tok = true) :
    ∃ ret, buildStage env symbol tok left right = .done ret ∧
      ∀ t ∈ ret, tokenTyped t = true := by
  rw [buildStage_eq]
  obtain ⟨ok, hd⟩ := dropLeadingTrues_total env left tok hl ht
  simp only [hd]
  have hopen : ∀ t ∈ (clauseOpen symbol : List (ExpressionToken F)), tokenTyped t = true := by
    intro t htm
    unfold clauseOpen at htm
    split at htm
    · simp only [List.mem_singleton] at htm
      subst htm
      rfl
    · simp at htm
  have hclose : ∀ t ∈ (clauseClose symbol : List (ExpressionToken F)), tokenTyped t = true := by
    intro t htm
    unfold clauseClose at htm
    split at htm
    · simp only [List.mem_singleton] at htm
      subst htm
      rfl
    · simp at htm
  have hop : ∀ t ∈ operatorTokens tok, tokenTyped t = true := by
    intro t htm
    unfold operatorTokens at htm
    split at htm
    · simp at htm
    · rename_i hnil
      simp only [List.mem_singleton] at htm
      subst htm
      exact tokenTyped_of_rootTyped t ht (by simpa using hnil)
  have hkept : ∀ t ∈ clauseOpen symbol ++ (if ok = true then left ++ operatorTokens tok else []),
      tokenTyped t = true := by
    intro t htm
    simp only [List.mem_append] at htm
    rcases htm with h1 | h1
    · exact hopen t h1
    · cases ok with
      | false => simp at h1
      | true =>
        simp only [if_true, List.mem_append] at h1
        rcases h1 with h2 | h2
        · exact hl t h2
        · exact hop t h2
  obtain ⟨⟨ret, ok2⟩, hdt⟩ := dropTrailingTrues_total env _ right hkept hr
  simp only [hdt]
  refine ⟨_, rfl, ?_⟩
  have hret : ∀ t ∈ ret, tokenTyped t = true :=
    fun t htm => hkept t ((dropTrailingTrues_initial env _ right ret ok2 hdt).subset htm)
  intro t htm
  simp only [List.mem_append] at htm
  rcases htm with h1 | h1
  · cases ok2 with
    | false => exact hret t (by simpa using h1)
    | true =>
      simp only [if_true, List.mem_append] at h1
      rcases h1 with h2 | h2
      · exact hret t h2
      · exact hr t h2
  · exact hclose t h1

theorem simplifyTokens_typed (env : Env F) (parameters : Parameters F)
    (hlex : ∀ text toks, env.parseTokens text = some toks → ∀ t ∈ toks, tokenTyped t = true)
    (tokens : List (ExpressionToken F)) (h : ∀ t ∈ tokens, tokenTyped t = true) :
    ∀ t ∈ simplifyTokens env tokens parameters, tokenTyped t = true := by
  unfold simplifyTokens
  split
  · split
    · split
      · split
        · rename_i hp
          exact hlex _ _ hp
        · exact h
      · exact h
    · exact h
  · exact h

theorem traverseStages_typed (env : Env F) (parameters : Parameters F)
    (hlex : ∀ text toks, env.parseTokens text = some toks → ∀ t ∈ toks, tokenTyped t = true) :
    ∀ tree : evaluationStage F, treeTyped tree = true →
      ∃ ret, traverseStages env parameters tree = .done ret ∧
        ∀ t ∈ ret, tokenTyped t = true := by
  intro tree
  induction tree with
  | nil => intro _; exact ⟨[], rfl, by simp⟩
  | node symbol l r tok ihl ihr =>
    intro h
    simp only [treeTyped, Bool.and_eq_true] at h
    obtain ⟨⟨htok, hl⟩, hr⟩ := h
    obtain ⟨left, el, tl⟩ := ihl hl
    obtain ⟨right, er, tr⟩ := ihr hr
    obtain ⟨ret, eb, tb⟩ := buildStage_typed env symbol tok left right tl tr htok
    refine ⟨simplifyTokens env ret parameters, ?_, ?_⟩
    · simp only [traverseStages, el, er, eb]
    · exact simplifyTokens_typed env parameters hlex ret tb

/-- The lexer of the concrete instance returns well-typed tokens. -/
theorem Demo.parseTokens_typed (text : String) (toks : List (ExpressionToken Int))
    (h : Demo.parseTokens text = some toks) : ∀ t ∈ toks, tokenTyped t = true := by
  unfold Demo.parseTokens at h
  split at h
  · cases h; simp [tokenTyped]
  · split at h
    · cases h; simp [tokenTyped]
    · split at h
      · cases h
      · split at h
        · cases h; simp [tokenTyped]
        · cases h

end TotalLemmas

/-! ## Composition of loop runs -/

section ReachLemmas

variable {F : Type}

theorem LoopReach.trans (env : Env F) (expression : EvaluableExpression F)
    (parameters : Parameters F) {s1 s2 s3 : tokenStream F}
    {o1 o2 o3 : expressionOutputStream}
    (h12 : LoopReach env expression parameters s1 o1 s2 o2)
    (h23 : LoopReach env expression parameters s2 o2 s3 o3) :
    LoopReach env expression parameters s1 o1 s3 o3 := by
  induction h12 with
  | here s out => exact h23
  | step hnext hstep _ ih => exact LoopReach.step hnext hstep (ih h23)

/-- A loop run that reaches the end of the stream returns the joined buffer. -/
theorem renderTokens_of_reach (env : Env F) (expression : EvaluableExpression F)
    (parameters : Parameters F) (tokens : List (ExpressionToken F)) (frags : List String)
    (hreach : LoopReach env expression parameters (newTokenStream tokens) ⟨[]⟩
      ⟨tokens, tokens.length⟩ ⟨frags⟩) :
    renderTokens env expression parameters tokens = .done (" ".intercalate frags, none) := by
  obtain ⟨_, _, hfuel⟩ := renderLoop_reach env expression parameters hreach
  have h2 := hfuel (tokens.length + 1) (by simp [newTokenStream])
  simp only [Nat.sub_self, Nat.zero_add] at h2
  simp only [renderTokens]
  rw [h2]
  exact renderLoop_at_end env expression parameters tokens frags 0

/-- The step at an operator that takes back the last fragment and renders an operand. -/
theorem findNextClientString_coalesce (env : Env F) (expression : EvaluableExpression F)
    (parameters : Parameters F) (stream : tokenStream F) (pre : List String) (x s : String)
    (hget : stream.tokens[stream.index]? = some ⟨.TERNARY, .str s⟩)
    (hs : env.ternarySymbols s = OperatorSymbol.COALESCE) :
    findNextClientString env expression stream ⟨pre ++ [x]⟩ parameters
      = withOperand
          (findNextClientString env expression ⟨stream.tokens, stream.index + 1⟩ ⟨pre⟩ parameters)
          (fun right => "IF(" ++ x ++ " == NULL, " ++ right ++ ", " ++ x ++ ")") := by
  have hlt : stream.index < stream.tokens.length := (List.getElem?_eq_some.mp hget).1
  have hfuel : stream.tokens.length - stream.index + 1
      = (stream.tokens.length - (stream.index + 1) + 1) + 1 := by omega
  simp only [findNextClientString]
  rw [hfuel, findNextClientStringAux]
  simp [tokenStream.next, hget, hs, expressionOutputStream.rollback]

theorem findNextClientString_exponent (env : Env F) (expression : EvaluableExpression F)
    (parameters : Parameters F) (stream : tokenStream F) (pre : List String) (x s : String)
    (hget : stream.tokens[stream.index]? = some ⟨.MODIFIER, .str s⟩)
    (hs : env.modifierSymbols s = OperatorSymbol.EXPONENT) :
    findNextClientString env expression stream ⟨pre ++ [x]⟩ parameters
      = withOperand
          (findNextClientString env expression ⟨stream.tokens, stream.index + 1⟩ ⟨pre⟩ parameters)
          (fun right => x ++ "^" ++ right) := by
  have hlt : stream.index < stream.tokens.length := (List.getElem?_eq_some.mp hget).1
  have hfuel : stream.tokens.length - stream.index + 1
      = (stream.tokens.length - (stream.index + 1) + 1) + 1 := by omega
  simp only [findNextClientString]
  rw [hfuel, findNextClientStringAux]
  simp [tokenStream.next, hget, hs, expressionOutputStream.rollback]

theorem findNextClientString_modulus (env : Env F) (expression : EvaluableExpression F)
    (parameters : Parameters F) (stream : tokenStream F) (pre : List String) (x s : String)
    (hget : stream.tokens[stream.index]? = some ⟨.MODIFIER, .str s⟩)
    (hs : env.modifierSymbols s = OperatorSymbol.MODULUS) :
    findNextClientString env expression stream ⟨pre ++ [x]⟩ parameters
      = withOperand
          (findNextClientString env expression ⟨stream.tokens, stream.index + 1⟩ ⟨pre⟩ parameters)
          (fun right => x ++ " % " ++ right) := by
  have hlt : stream.index < stream.tokens.length := (List.getElem?_eq_some.mp hget).1
  have hfuel : stream.tokens.length - stream.index + 1
      = (stream.tokens.length - (stream.index + 1) + 1) + 1 := by omega
  simp only [findNextClientString]
  rw [hfuel, findNextClientStringAux]
  simp [tokenStream.next, hget, hs, expressionOutputStream.rollback]

end ReachLemmas

/-! ## Claims -/

section Claims

variable {F : Type}

/-- C1: a stage whose token is the logical AND and one of whose operands linearizes to the
single literal true yields, through traverseStages, exactly simplifyTokens of the other
operand's linearization, whether the true operand is on the left or on the right; hence
ToClientExpression of both trees equals ToClientExpression of the other operand alone
whenever folding that operand's linearization again leaves it unchanged. The stage is an
operator stage (its symbol is not the grouping marker), and for the right-hand case a
linearization of the other operand that is a lone boolean token carries a bool. -/
theorem and_true_operand_elided (env : Env F) (parameters : Parameters F)
    (symbol : OperatorSymbol) (T R : evaluationStage F) (r : List (ExpressionToken F))
    (hsym : symbol ≠ OperatorSymbol.NOOP)
    (hT : traverseStages env parameters T = .done [⟨.BOOLEAN, .bool true⟩])
    (hR : traverseStages env parameters R = .done r)
    (hwt : ∀ v, r = [⟨.BOOLEAN, v⟩] → ∃ b, v = .bool b) :
    traverseStages env parameters (.node symbol T R ⟨.LOGICALOP, .str env.andString⟩)
        = .done (simplifyTokens env r parameters) ∧
    traverseStages env parameters (.node symbol R T ⟨.LOGICALOP, .str env.andString⟩)
        = .done (simplifyTokens env r parameters) ∧
    (simplifyTokens env r parameters = r → ∀ fmt : String,
      ToClientExpression env ⟨fmt, .node symbol T R ⟨.LOGICALOP, .str env.andString⟩⟩ parameters
        = ToClientExpression env ⟨fmt, R⟩ parameters ∧
      ToClientExpression env ⟨fmt, .node symbol R T ⟨.LOGICALOP, .str env.andString⟩⟩ parameters
        = ToClientExpression env ⟨fmt, R⟩ parameters) := by
  have hleft : traverseStages env parameters
      (.node symbol T R ⟨.LOGICALOP, .str env.andString⟩)
        = .done (simplifyTokens env r parameters) := by
    simp [traverseStages, hT, hR, buildStage, dropLeadingTrues_true_and,
      dropTrailingTrues_nil, hsym]
  have hright : traverseStages env parameters
      (.node symbol R T ⟨.LOGICALOP, .str env.andString⟩)
        = .done (simplifyTokens env r parameters) := by
    by_cases hr : r = [⟨.BOOLEAN, .bool true⟩]
    · subst hr
      simp [traverseStages, hT, hR, buildStage, dropLeadingTrues_true_and,
        dropTrailingTrues_nil, hsym]
    · have hkeep := dropLeadingTrues_keep env r ⟨.LOGICALOP, .str env.andString⟩ hwt hr
        ⟨_, rfl⟩
      simp [traverseStages, hT, hR, buildStage, hkeep, dropTrailingTrues_and_true, hsym,
        Value.isNil]
  refine ⟨hleft, hright, ?_⟩
  intro hfold fmt
  simp only [ToClientExpression, hleft, hright, hR, hfold]
  constructor <;> apply renderTokens_format <;> rfl

/-- Witness of C1 on the trees of true AND x > 1 and x > 1 AND true. -/
theorem and_true_operand_elided_witness :
    (Demo.binary .AND (Demo.leaf Demo.tTrue) Demo.tAnd Demo.xGt1 ≠ Demo.xGt1) ∧
    ToClientExpression Demo.env ⟨"", Demo.binary .AND (Demo.leaf Demo.tTrue) Demo.tAnd Demo.xGt1⟩
        Demo.noBindings = .done ("x > 1", none) ∧
    ToClientExpression Demo.env ⟨"", Demo.binary .AND Demo.xGt1 Demo.tAnd (Demo.leaf Demo.tTrue)⟩
        Demo.noBindings = .done ("x > 1", none) :=
  have h := and_true_operand_elided Demo.env Demo.noBindings .AND (Demo.leaf Demo.tTrue)
    Demo.xGt1 [Demo.tVar "x", Demo.tCmp ">", Demo.tNum 1] (by decide) (by decide) (by decide)
    (by intro v hv; exact absurd hv (by simp))
  ⟨by decide, (h.2.2 (by decide) "").1.trans (by decide), (h.2.2 (by decide) "").2.trans (by decide)⟩


/-- C2 (evaluation at the failing input): for the tree of x > 1 OR true the sequence built
before folding is the left operand followed by the OR token, without the right operand, and
the rendered string ends in the dangling operator. -/
theorem or_true_right_operand_dropped :
    buildStage Demo.env (.other 8) Demo.tOr
        [Demo.tVar "x", Demo.tCmp ">", Demo.tNum 1] [Demo.tTrue]
      = .done [Demo.tVar "x", Demo.tCmp ">", Demo.tNum 1, Demo.tOr] ∧
    traverseStages Demo.env Demo.noBindings (Demo.leaf Demo.tTrue) = .done [Demo.tTrue] ∧
    ToClientExpression Demo.env
        ⟨"", Demo.binary (.other 8) Demo.xGt1 Demo.tOr (Demo.leaf Demo.tTrue)⟩ Demo.noBindings
      = .done ("x > 1 ||", none) := by
  decide

/-- C3: simplifyTokens returns its input unchanged when it has at most one token, when the
planner fails, when the evaluation fails, or when lexing the text of the value fails; it
returns the lexed tokens of the value when there is more than one token and the three
steps succeed. It has no error result. -/
theorem simplifyTokens_cases (env : Env F) (tokens : List (ExpressionToken F))
    (parameters : Parameters F) :
    (tokens.length ≤ 1 → simplifyTokens env tokens parameters = tokens) ∧
    (env.NewEvaluableExpressionFromTokens tokens = none →
      simplifyTokens env tokens parameters = tokens) ∧
    (∀ new, env.NewEvaluableExpressionFromTokens tokens = some new →
      env.Evaluate new parameters = none → simplifyTokens env tokens parameters = tokens) ∧
    (∀ new val, env.NewEvaluableExpressionFromTokens tokens = some new →
      env.Evaluate new parameters = some val → env.parseTokens (env.sprintV val) = none →
      simplifyTokens env tokens parameters = tokens) ∧
    (∀ new val newTokens, 1 < tokens.length →
      env.NewEvaluableExpressionFromTokens tokens = some new →
      env.Evaluate new parameters = some val →
      env.parseTokens (env.sprintV val) = some newTokens →
      simplifyTokens env tokens parameters = newTokens) := by
  refine ⟨?_, ?_, ?_, ?_, ?_⟩
  · intro h
    have : ¬ tokens.length > 1 := by omega
    simp [simplifyTokens, this]
  · intro h
    simp [simplifyTokens, h]
  · intro new h1 h2
    simp [simplifyTokens, h1, h2]
  · intro new val h1 h2 h3
    simp [simplifyTokens, h1, h2, h3]
  · intro new val newTokens hlen h1 h2 h3
    simp [simplifyTokens, h1, h2, h3, hlen]

/-- Witness of C3: the tokens of 2 + 3 fold to the token of 5, and the tokens of x + 3 with
x unbound stay as they are because the evaluation fails. -/
theorem simplifyTokens_cases_witness :
    simplifyTokens Demo.env [Demo.tNum 2, Demo.tMod "+", Demo.tNum 3] Demo.noBindings
      = [Demo.tNum 5] ∧
    simplifyTokens Demo.env [Demo.tVar "x", Demo.tMod "+", Demo.tNum 3] Demo.noBindings
      = [Demo.tVar "x", Demo.tMod "+", Demo.tNum 3] :=
  ⟨(simplifyTokens_cases Demo.env [Demo.tNum 2, Demo.tMod "+", Demo.tNum 3]
      Demo.noBindings).2.2.2.2
      ⟨"", .node (.other 0) (Demo.leaf (Demo.tNum 2)) (Demo.leaf (Demo.tNum 3)) (Demo.tMod "+")⟩
      (.num 5) [Demo.tNum 5] (by decide) (by decide) (by decide) (by decide),
   (simplifyTokens_cases Demo.env [Demo.tVar "x", Demo.tMod "+", Demo.tNum 3]
      Demo.noBindings).2.2.1
      ⟨"", .node (.other 0) (Demo.leaf (Demo.tVar "x")) (Demo.leaf (Demo.tNum 3)) (Demo.tMod "+")⟩
      (by decide) (by decide)⟩

/-- C4 (counterexample): the tree of true ? 1 : 2 carries an else-branch token, yet folding
replaces its linearization by the token of 1 and ToClientExpression returns the string 1
without error. -/
theorem ternary_else_folded_away :
    containsTernaryElse Demo.env
        (Demo.binary (.other 9)
          (Demo.binary (.other 10) (Demo.leaf Demo.tTrue) (Demo.tTern "?") (Demo.leaf (Demo.tNum 1)))
          (Demo.tTern ":") (Demo.leaf (Demo.tNum 2))) = true ∧
    ToClientExpression Demo.env
        ⟨"", Demo.binary (.other 9)
          (Demo.binary (.other 10) (Demo.leaf Demo.tTrue) (Demo.tTern "?") (Demo.leaf (Demo.tNum 1)))
          (Demo.tTern ":") (Demo.leaf (Demo.tNum 2))⟩ Demo.noBindings
      = .done ("1", none) := by
  decide

/-- C4 (amended): when the token sequence traverseStages returns for the tree, after
elision and folding, contains a ternary else-branch token, ToClientExpression returns no
rendered string: it returns the empty string with an error, or panics; and it returns the
unsupported-feature error whenever the render loop reaches an else-branch token at the
head of an iteration, every earlier render step having succeeded. -/
theorem ternary_else_in_linearization_fails (env : Env F) (expression : EvaluableExpression F)
    (parameters : Parameters F) (ret : List (ExpressionToken F)) (t : ExpressionToken F)
    (hret : traverseStages env parameters expression.evaluationStages = .done ret)
    (ht : t ∈ ret) (helse : isTernaryElse env t = true) :
    ((∃ err, ToClientExpression env expression parameters = .done ("", some err)) ∨
      ToClientExpression env expression parameters = .panic) ∧
    (∀ (s : tokenStream F) (out : expressionOutputStream) (t1 : ExpressionToken F),
      LoopReach env expression parameters (newTokenStream ret) ⟨[]⟩ s out →
      s.tokens[s.index]? = some t1 → isTernaryElse env t1 = true →
      ToClientExpression env expression parameters = .done ("", some ternaryUnsupported)) := by
  have hT : ToClientExpression env expression parameters
      = renderLoop env expression parameters (ret.length + 1) (newTokenStream ret) ⟨[]⟩ := by
    simp [ToClientExpression, hret, renderTokens]
  constructor
  · rw [hT]
    cases hloop : renderLoop env expression parameters (ret.length + 1) (newTokenStream ret) ⟨[]⟩ with
    | panic => exact Or.inr rfl
    | outOfFuel =>
      exact absurd hloop (renderLoop_fuel env expression parameters _ _ _ (by simp [newTokenStream]))
    | done a =>
      obtain ⟨str, e⟩ := a
      cases e with
      | some err =>
        have := renderLoop_error env expression parameters _ _ _ _ _ hloop
        subst this
        exact Or.inl ⟨err, rfl⟩
      | none =>
        obtain ⟨i, hi, hget⟩ := List.getElem_of_mem ht
        have := renderLoop_string env expression parameters _ _ _ _ hloop i t (by simp [newTokenStream])
          (by simp [newTokenStream, List.getElem?_eq_getElem hi, hget])
        rw [helse] at this
        cases this
  · intro s out t1 hreach hget h1
    obtain ⟨htok, _, hfuel⟩ := renderLoop_reach env expression parameters hreach
    rw [hT, hfuel _ (by simp [newTokenStream])]
    have hlt : s.index < s.tokens.length := (List.getElem?_eq_some.mp hget).1
    simp [renderLoop, tokenStream.hasNext, hlt,
      findNextClientString_else env expression parameters s out t1 hget h1]

/-- Witness of C4 (amended) on the tree of c ? 1 : 2 with c unbound, whose linearization
is not folded: the loop renders c, the then-branch and 1, and fails at the else-branch. -/
theorem ternary_else_in_linearization_fails_witness :
    ToClientExpression Demo.env
        ⟨"", Demo.binary (.other 9)
          (Demo.binary (.other 10) (Demo.leaf (Demo.tVar "c")) (Demo.tTern "?")
            (Demo.leaf (Demo.tNum 1)))
          (Demo.tTern ":") (Demo.leaf (Demo.tNum 2))⟩ Demo.noBindings
      = .done ("", some ternaryUnsupported) :=
  (ternary_else_in_linearization_fails Demo.env
      ⟨"", Demo.binary (.other 9)
        (Demo.binary (.other 10) (Demo.leaf (Demo.tVar "c")) (Demo.tTern "?")
          (Demo.leaf (Demo.tNum 1)))
        (Demo.tTern ":") (Demo.leaf (Demo.tNum 2))⟩
      Demo.noBindings
      [Demo.tVar "c", Demo.tTern "?", Demo.tNum 1, Demo.tTern ":", Demo.tNum 2]
      (Demo.tTern ":") (by decide) (by decide) (by decide)).2
    ⟨[Demo.tVar "c", Demo.tTern "?", Demo.tNum 1, Demo.tTern ":", Demo.tNum 2], 3⟩
    ⟨["c", "1"]⟩ (Demo.tTern ":")
    (@LoopReach.step Int Demo.env _ Demo.noBindings _
      ⟨[Demo.tVar "c", Demo.tTern "?", Demo.tNum 1, Demo.tTern ":", Demo.tNum 2], 1⟩ _
      _ ⟨[]⟩ _ "c" (by decide) (by decide)
      (@LoopReach.step Int Demo.env _ Demo.noBindings _
        ⟨[Demo.tVar "c", Demo.tTern "?", Demo.tNum 1, Demo.tTern ":", Demo.tNum 2], 2⟩ _
        _ ⟨[]⟩ _ "c" (by decide) (by decide)
        (@LoopReach.step Int Demo.env _ Demo.noBindings _
          ⟨[Demo.tVar "c", Demo.tTern "?", Demo.tNum 1, Demo.tTern ":", Demo.tNum 2], 3⟩ _
          _ ⟨["c"]⟩ _ "1" (by decide) (by decide)
          (LoopReach.here _ _))))
    (by decide) (by decide)

/-- C8: when a render step of the loop of ToClientExpression fails, every earlier step
having succeeded, ToClientExpression returns the empty string together with that error;
the failing step itself returns the empty fragment, an error of a recursive operand
render is passed on unchanged with the empty fragment, and whenever ToClientExpression
returns an error its string is empty. -/
theorem first_error_aborts (env : Env F) (expression : EvaluableExpression F)
    (parameters : Parameters F) (ret : List (ExpressionToken F))
    (hret : traverseStages env parameters expression.evaluationStages = .done ret)
    (s s1 : tokenStream F) (out out1 : expressionOutputStream) (x err : String)
    (hreach : LoopReach env expression parameters (newTokenStream ret) ⟨[]⟩ s out)
    (hfail : findNextClientString env expression s out parameters
      = .done (x, some err, s1, out1)) :
    ToClientExpression env expression parameters = .done ("", some err) ∧ x = "" ∧
    (∀ (k : String → String) (y : String),
      withOperand (.done (y, some err, s1, out1)) k = .done ("", some err, s1, out1)) ∧
    (∀ str err1, ToClientExpression env expression parameters = .done (str, some err1) →
      str = "") := by
  have hT : ToClientExpression env expression parameters
      = renderLoop env expression parameters (ret.length + 1) (newTokenStream ret) ⟨[]⟩ := by
    simp [ToClientExpression, hret, renderTokens]
  obtain ⟨_, hlt, hle, hx, _⟩ := findNextClientString_done env expression parameters hfail
  refine ⟨?_, hx (by simp), fun _ _ => rfl, ?_⟩
  · obtain ⟨htok, _, hfuel⟩ := renderLoop_reach env expression parameters hreach
    rw [hT, hfuel _ (by simp [newTokenStream])]
    have hnext : s.index < s.tokens.length := by omega
    simp [renderLoop, tokenStream.hasNext, hnext, hfail]
  · intro str err1 h
    rw [hT] at h
    exact renderLoop_error env expression parameters _ _ _ _ _ h

/-- Witness of C8 on the tree of y : 2 with y unbound: y is rendered, then the else-branch
fails, and nothing of the rendered y is returned. -/
theorem first_error_aborts_witness :
    ToClientExpression Demo.env
        ⟨"", Demo.binary (.other 9) (Demo.leaf (Demo.tVar "y")) (Demo.tTern ":")
          (Demo.leaf (Demo.tNum 2))⟩ Demo.noBindings
      = .done ("", some ternaryUnsupported) :=
  (first_error_aborts Demo.env
      ⟨"", Demo.binary (.other 9) (Demo.leaf (Demo.tVar "y")) (Demo.tTern ":")
        (Demo.leaf (Demo.tNum 2))⟩
      Demo.noBindings [Demo.tVar "y", Demo.tTern ":", Demo.tNum 2] (by decide)
      ⟨[Demo.tVar "y", Demo.tTern ":", Demo.tNum 2], 1⟩
      ⟨[Demo.tVar "y", Demo.tTern ":", Demo.tNum 2], 2⟩ ⟨["y"]⟩ ⟨["y"]⟩ "" ternaryUnsupported
      (@LoopReach.step Int Demo.env _ Demo.noBindings _
        ⟨[Demo.tVar "y", Demo.tTern ":", Demo.tNum 2], 1⟩ _ _ ⟨[]⟩ _ "y" (by decide) (by decide)
        (LoopReach.here _ _))
      (by decide)).1

/-- C5: for the token sequence l, coalesce, r with l and r literal or variable tokens whose
renderings alone are L and R, rendering from an empty output succeeds with the string
IF(L == NULL, R, L); the coalesce step, entered with the buffer holding L, removes L from
the buffer, consumes r and returns that one fragment. -/
theorem coalesce_renders_if (env : Env F) (expression : EvaluableExpression F)
    (parameters : Parameters F) (l r : ExpressionToken F) (s L R : String)
    (hl : isOperandKind l.Kind = true) (hr : isOperandKind r.Kind = true)
    (hs : env.ternarySymbols s = OperatorSymbol.COALESCE)
    (hL : renderTokens env expression parameters [l] = .done (L, none))
    (hR : renderTokens env expression parameters [r] = .done (R, none)) :
    renderTokens env expression parameters [l, ⟨.TERNARY, .str s⟩, r]
      = .done ("IF(" ++ L ++ " == NULL, " ++ R ++ ", " ++ L ++ ")", none) ∧
    findNextClientString env expression ⟨[l, ⟨.TERNARY, .str s⟩, r], 1⟩ ⟨[L]⟩ parameters
      = .done ("IF(" ++ L ++ " == NULL, " ++ R ++ ", " ++ L ++ ")", none,
          ⟨[l, ⟨.TERNARY, .str s⟩, r], 3⟩, ⟨[]⟩) := by
  have pl := plainFragment_of_renderTokens env expression parameters l L hl hL
  have pr := plainFragment_of_renderTokens env expression parameters r R hr hR
  have h0 : findNextClientString env expression ⟨[l, ⟨.TERNARY, .str s⟩, r], 0⟩ ⟨[]⟩ parameters
      = .done (L, none, ⟨[l, ⟨.TERNARY, .str s⟩, r], 1⟩, ⟨[]⟩) :=
    findNextClientString_plain env expression parameters
      ⟨[l, ⟨.TERNARY, .str s⟩, r], 0⟩ ⟨[]⟩ l L rfl pl
  have h2 : findNextClientStringAux env expression parameters 2
      ⟨[l, ⟨.TERNARY, .str s⟩, r], 2⟩ ⟨[]⟩
      = .done (R, none, ⟨[l, ⟨.TERNARY, .str s⟩, r], 3⟩, ⟨[]⟩) :=
    findNextClientStringAux_plain env expression parameters 1
      ⟨[l, ⟨.TERNARY, .str s⟩, r], 2⟩ ⟨[]⟩ r R rfl pr
  have h1 : findNextClientString env expression ⟨[l, ⟨.TERNARY, .str s⟩, r], 1⟩ ⟨[L]⟩ parameters
      = .done ("IF(" ++ L ++ " == NULL, " ++ R ++ ", " ++ L ++ ")", none,
          ⟨[l, ⟨.TERNARY, .str s⟩, r], 3⟩, ⟨[]⟩) := by
    show findNextClientStringAux env expression parameters 3 _ _ = _
    rw [findNextClientStringAux]
    simp [tokenStream.next, hs, expressionOutputStream.rollback, h2, withOperand]
  refine ⟨?_, h1⟩
  show renderLoop env expression parameters 4 ⟨[l, ⟨.TERNARY, .str s⟩, r], 0⟩ ⟨[]⟩ = _
  rw [renderLoop]
  simp only [tokenStream.hasNext, List.length_cons, List.length_nil, h0,
    expressionOutputStream.add, List.nil_append]
  rw [renderLoop]
  simp [h1, renderLoop, tokenStream.hasNext, expressionOutputStream.add,
    expressionOutputStream.createString, String.intercalate, String.intercalate.go]

/-- Witness of C5: a ?? b with a and b unbound renders as IF(a == NULL, b, a). -/
theorem coalesce_renders_if_witness :
    renderTokens Demo.env ⟨"", .nil⟩ Demo.noBindings
        [Demo.tVar "a", Demo.tTern "??", Demo.tVar "b"]
      = .done ("IF(a == NULL, b, a)", none) :=
  (coalesce_renders_if Demo.env ⟨"", .nil⟩ Demo.noBindings (Demo.tVar "a") (Demo.tVar "b")
    "??" "a" "b" (by decide) (by decide) (by decide) (by decide) (by decide)).1

/-- C6: ToClientExpression of a single childless stage whose token is the variable v returns,
without error, the text of the binding of v when v is bound and the name v when it is not;
the linearization is the one token of the stage. The stage is not a grouping stage. -/
theorem variable_leaf_renders (env : Env F) (fmt : String) (parameters : Parameters F)
    (symbol : OperatorSymbol) (v : String) (hsym : symbol ≠ OperatorSymbol.NOOP) :
    traverseStages env parameters (.node symbol .nil .nil ⟨.VARIABLE, .str v⟩)
      = .done [⟨.VARIABLE, .str v⟩] ∧
    (∀ val, parameters v = some val →
      ToClientExpression env ⟨fmt, .node symbol .nil .nil ⟨.VARIABLE, .str v⟩⟩ parameters
        = .done (env.sprintV val, none)) ∧
    (parameters v = none →
      ToClientExpression env ⟨fmt, .node symbol .nil .nil ⟨.VARIABLE, .str v⟩⟩ parameters
        = .done (v, none)) := by
  have ht : traverseStages env parameters (.node symbol .nil .nil ⟨.VARIABLE, .str v⟩)
      = .done [⟨.VARIABLE, .str v⟩] := by
    simp [traverseStages, buildStage, dropLeadingTrues, dropTrailingTrues, hsym, Value.isNil,
      simplifyTokens]
  refine ⟨ht, ?_, ?_⟩
  · intro val hval
    simp only [ToClientExpression, ht]
    exact renderTokens_single_plain env _ parameters _ _ (by simp [plainFragment, hval])
  · intro hval
    simp only [ToClientExpression, ht]
    exact renderTokens_single_plain env _ parameters _ _ (by simp [plainFragment, hval])

/-- Witness of C6: age renders as 7 under the binding of age to 7 and as age without it. -/
theorem variable_leaf_renders_witness :
    ToClientExpression Demo.env ⟨"", Demo.leaf (Demo.tVar "age")⟩
        (fun name => if name = "age" then some (.num 7) else none) = .done ("7", none) ∧
    ToClientExpression Demo.env ⟨"", Demo.leaf (Demo.tVar "age")⟩ Demo.noBindings
      = .done ("age", none) :=
  ⟨(variable_leaf_renders Demo.env "" (fun name => if name = "age" then some (.num 7) else none)
      (.other 0) "age" (by decide)).2.1 (.num 7) (by decide),
   (variable_leaf_renders Demo.env "" Demo.noBindings (.other 0) "age" (by decide)).2.2
      (by decide)⟩

/-- C7: at a logical-not token followed by a token t, findNextClientString renders the one
logical unit that starts at t and wraps it: an error of the operand is passed on; a
fragment becomes NOT fragment when t is a clause-open token and NOT (fragment) otherwise;
the stream is left where the operand left it, so the step consumed the logical-not token
and exactly that unit. -/
theorem logical_not_wraps_operand (env : Env F) (expression : EvaluableExpression F)
    (parameters : Parameters F) (stream : tokenStream F)
    (transactions : expressionOutputStream) (s : String) (t : ExpressionToken F)
    (hnot : stream.tokens[stream.index]? = some ⟨.PREFIX, .str s⟩)
    (hs : env.prefixSymbols s = OperatorSymbol.INVERT)
    (ht : stream.tokens[stream.index + 1]? = some t) :
    findNextClientString env expression stream transactions parameters
      = withOperand
          (findNextClientString env expression ⟨stream.tokens, stream.index + 1⟩ transactions
            parameters)
          (fun right =>
            if t.Kind = TokenKind.CLAUSE then "NOT " ++ right else "NOT (" ++ right ++ ")") ∧
    (∀ right s2 out2,
      findNextClientString env expression ⟨stream.tokens, stream.index + 1⟩ transactions
          parameters = .done (right, none, s2, out2) →
      findNextClientString env expression stream transactions parameters
          = .done (if t.Kind = TokenKind.CLAUSE then "NOT " ++ right
              else "NOT (" ++ right ++ ")", none, s2, out2) ∧
        stream.index + 1 < s2.index) := by
  have hlt : stream.index + 1 < stream.tokens.length := (List.getElem?_eq_some.mp ht).1
  have hfuel : stream.tokens.length - stream.index + 1
      = (stream.tokens.length - (stream.index + 1) + 1) + 1 := by omega
  have heq : findNextClientString env expression stream transactions parameters
      = withOperand
          (findNextClientString env expression ⟨stream.tokens, stream.index + 1⟩ transactions
            parameters)
          (fun right =>
            if t.Kind = TokenKind.CLAUSE then "NOT " ++ right else "NOT (" ++ right ++ ")") := by
    simp only [findNextClientString]
    rw [hfuel, findNextClientStringAux]
    simp [tokenStream.next, hnot, hs, ht, tokenStream.rewind]
  refine ⟨heq, ?_⟩
  intro right s2 out2 hop
  refine ⟨by rw [heq, hop]; rfl, ?_⟩
  exact (findNextClientString_done env expression parameters hop).2.1

/-- Witness of C7: ! x renders as NOT (x) and ! followed by a clause-open token as NOT (. -/
theorem logical_not_wraps_operand_witness :
    findNextClientString Demo.env ⟨"", .nil⟩ ⟨[Demo.tNot, Demo.tVar "x"], 0⟩ ⟨[]⟩ Demo.noBindings
      = .done ("NOT (x)", none, ⟨[Demo.tNot, Demo.tVar "x"], 2⟩, ⟨[]⟩) ∧
    findNextClientString Demo.env ⟨"", .nil⟩
        ⟨[Demo.tNot, ⟨.CLAUSE, .nil⟩, Demo.tVar "x", ⟨.CLAUSE_CLOSE, .nil⟩], 0⟩ ⟨[]⟩
        Demo.noBindings
      = .done ("NOT (", none,
          ⟨[Demo.tNot, ⟨.CLAUSE, .nil⟩, Demo.tVar "x", ⟨.CLAUSE_CLOSE, .nil⟩], 2⟩, ⟨[]⟩) :=
  ⟨((logical_not_wraps_operand Demo.env ⟨"", .nil⟩ Demo.noBindings
      ⟨[Demo.tNot, Demo.tVar "x"], 0⟩ ⟨[]⟩ "!" (Demo.tVar "x") (by decide) (by decide)
      (by decide)).2 "x" ⟨[Demo.tNot, Demo.tVar "x"], 2⟩ ⟨[]⟩ (by decide)).1,
   ((logical_not_wraps_operand Demo.env ⟨"", .nil⟩ Demo.noBindings
      ⟨[Demo.tNot, ⟨.CLAUSE, .nil⟩, Demo.tVar "x", ⟨.CLAUSE_CLOSE, .nil⟩], 0⟩ ⟨[]⟩ "!"
      ⟨.CLAUSE, .nil⟩ (by decide) (by decide) (by decide)).2 "("
      ⟨[Demo.tNot, ⟨.CLAUSE, .nil⟩, Demo.tVar "x", ⟨.CLAUSE_CLOSE, .nil⟩], 2⟩ ⟨[]⟩
      (by decide)).1⟩

/-- C9 (counterexample): no stage of the tree has a logical operator as its token, yet the
trailing elision fires. With x bound to the string a &&, the left child true ? x folds to
the lexed tokens a and && of its value; the root stage has a nil-valued token, so the
sequence built so far ends in that operator and the right operand true is dropped together
with it: traverseStages returns a where the plain in-order linearization is a && true, and
the rendered strings differ. -/
theorem folded_operator_elided :
    noLogicalOp Demo.foldedAnd = true ∧
    traverseStages Demo.envNames Demo.xIsAnd Demo.foldedAnd = .done [Demo.tVar "a"] ∧
    plainLinearize Demo.envNames Demo.xIsAnd Demo.foldedAnd
      = [Demo.tVar "a", Demo.tAnd, Demo.tTrue] ∧
    buildStage Demo.envNames (.other 11) ⟨.UNKNOWN, .nil⟩ [Demo.tVar "a", Demo.tAnd]
        [Demo.tTrue]
      ≠ .done (inOrder (.other 11) ⟨.UNKNOWN, .nil⟩ [Demo.tVar "a", Demo.tAnd] [Demo.tTrue]) ∧
    ToClientExpression Demo.envNames ⟨"", Demo.foldedAnd⟩ Demo.xIsAnd = .done ("a", none) ∧
    renderTokens Demo.envNames ⟨"", Demo.foldedAnd⟩ Demo.xIsAnd
        (plainLinearize Demo.envNames Demo.xIsAnd Demo.foldedAnd)
      = .done ("a && TRUE", none) := by
  decide

/-- C9 (amended): in a tree none of whose stages has a logical operator as its token, and
in which at every stage with a nil-valued token the plain linearization of the left child
does not end in a logical operator (as when such a stage has no left child), no elision
fires: at every stage the sequence built from the linearized children is the clause-open
token of a grouping stage, the left tokens, the stage's token when its value is not nil,
the right tokens and the clause-close token of a grouping stage; traverseStages returns
the plain in-order linearization with folding only, and ToClientExpression is the
token-by-token rendering of that sequence. -/
theorem no_logical_operator_no_elision (env : Env F) (parameters : Parameters F)
    (fmt : String) (tree : evaluationStage F)
    (htree : noLogicalOp tree = true)
    (hsafe : nilTokenLeftSafe env parameters tree = true) :
    traverseStages env parameters tree = .done (plainLinearize env parameters tree) ∧
    (∀ symbol l r t, evaluationStage.node symbol l r t ∈ stagesOf tree →
      traverseStages env parameters l = .done (plainLinearize env parameters l) ∧
      traverseStages env parameters r = .done (plainLinearize env parameters r) ∧
      buildStage env symbol t (plainLinearize env parameters l) (plainLinearize env parameters r)
        = .done (inOrder symbol t (plainLinearize env parameters l)
            (plainLinearize env parameters r))) ∧
    ToClientExpression env ⟨fmt, tree⟩ parameters
      = renderTokens env ⟨fmt, tree⟩ parameters (plainLinearize env parameters tree) := by
  have hroot := traverseStages_in_order env parameters tree htree hsafe
  refine ⟨hroot, ?_, by simp [ToClientExpression, hroot]⟩
  intro symbol l r t hmem
  have hsub := noLogicalOp_of_mem_stagesOf tree _ hmem htree
  have hsubsafe := nilTokenLeftSafe_of_mem_stagesOf env parameters tree _ hmem hsafe
  simp only [noLogicalOp, Bool.and_eq_true, bne_iff_ne, ne_eq] at hsub
  simp only [nilTokenLeftSafe, Bool.and_eq_true, Bool.or_eq_true, Bool.not_eq_true']
    at hsubsafe
  obtain ⟨⟨hk, hl⟩, hr⟩ := hsub
  obtain ⟨⟨hleft, sl⟩, sr⟩ := hsubsafe
  refine ⟨traverseStages_in_order env parameters l hl sl,
    traverseStages_in_order env parameters r hr sr,
    buildStage_in_order env symbol t _ _ hk ?_⟩
  intro hnil
  rcases hleft with h1 | h1
  · rw [hnil] at h1
    cases h1
  · exact h1

/-- Witness of C9 (amended) on the grouping stage over x > 1, whose nil-valued token has no
left child: it is rendered token by token as ( x > 1 ). -/
theorem no_logical_operator_no_elision_witness :
    ToClientExpression Demo.env
        ⟨"", .node OperatorSymbol.NOOP .nil Demo.xGt1 ⟨.UNKNOWN, .nil⟩⟩ Demo.noBindings
      = .done ("( x > 1 )", none) :=
  (no_logical_operator_no_elision Demo.env Demo.noBindings ""
    (.node OperatorSymbol.NOOP .nil Demo.xGt1 ⟨.UNKNOWN, .nil⟩)
    (by decide) (by decide)).2.2.trans (by decide)

/-- C10: for a stream whose next token t is not an operator that renders an operand,
findNextClientString returns the unrecognized-token error, whose message is built from the
value and the kind of t, exactly when the kind of t is outside the dispatch set; a token of
a kind in the set other than an else-branch never yields an error, and it renders a
fragment whenever its payload has the type of its kind and, for a then-branch, the output
buffer is not empty. -/
theorem unrecognized_iff_outside_dispatch (env : Env F) (expression : EvaluableExpression F)
    (parameters : Parameters F) (stream : tokenStream F)
    (transactions : expressionOutputStream) (t : ExpressionToken F)
    (hget : stream.tokens[stream.index]? = some t)
    (hrec : rendersOperand env t = false) :
    ((∃ x s1 out1, findNextClientString env expression stream transactions parameters
        = .done (x, some (unrecognizedToken env t), s1, out1)) ↔ inDispatchSet t.Kind = false) ∧
    (inDispatchSet t.Kind = false →
      findNextClientString env expression stream transactions parameters
        = .done ("", some ("Unrecognized query token '" ++ env.sprintS t.Value ++
            "' of kind '" ++ env.kindString t.Kind ++ "'"),
            ⟨stream.tokens, stream.index + 1⟩, transactions)) ∧
    (inDispatchSet t.Kind = true → isTernaryElse env t = false →
      ∀ x err s1 out1, findNextClientString env expression stream transactions parameters
        ≠ .done (x, some err, s1, out1)) ∧
    (inDispatchSet t.Kind = true → isTernaryElse env t = false → wellTyped t = true →
      (isTernaryThen env t = true → transactions.transactions ≠ []) →
      ∃ x out1, findNextClientString env expression stream transactions parameters
        = .done (x, none, ⟨stream.tokens, stream.index + 1⟩, out1)) := by
  have hne := unrecognizedToken_ne_ternaryUnsupported env t
  obtain ⟨k, v⟩ := t
  cases k <;> cases v <;>
    simp [findNextClientString, findNextClientStringAux, tokenStream.next, hget, inDispatchSet,
      isTernaryElse, isTernaryThen, wellTyped, rendersOperand, unrecognizedToken] at hrec hne ⊢
  case mk.VARIABLE.str s =>
    cases parameters s <;> simp
  case mk.MODIFIER.str s =>
    cases hsym : env.modifierSymbols s <;> simp_all
  case mk.TERNARY.str s =>
    cases hsym : env.ternarySymbols s <;> simp_all
    · cases hrb : transactions.rollback with
      | some p => simp
      | none =>
        simp
        unfold expressionOutputStream.rollback at hrb
        cases hl : transactions.transactions.getLast? with
        | none => exact List.getLast?_eq_none_iff.mp hl
        | some last => simp [hl] at hrb
    · intro x s1 out1 _ h
      exact absurd h.symm hne

/-- Witness of C10: a token of kind FUNCTION yields the unrecognized-token error naming its
value and kind, and a comparator token renders without error. -/
theorem unrecognized_iff_outside_dispatch_witness :
    findNextClientString Demo.env ⟨"", .nil⟩ ⟨[⟨.FUNCTION, .str "f"⟩], 0⟩ ⟨[]⟩ Demo.noBindings
      = .done ("", some "Unrecognized query token 'f' of kind 'FUNCTION'",
          ⟨[⟨.FUNCTION, .str "f"⟩], 1⟩, ⟨[]⟩) ∧
    (∃ x out1, findNextClientString Demo.env ⟨"", .nil⟩ ⟨[Demo.tCmp ">"], 0⟩ ⟨[]⟩ Demo.noBindings
      = .done (x, none, ⟨[Demo.tCmp ">"], 1⟩, out1)) :=
  ⟨(unrecognized_iff_outside_dispatch Demo.env ⟨"", .nil⟩ Demo.noBindings
      ⟨[⟨.FUNCTION, .str "f"⟩], 0⟩ ⟨[]⟩ ⟨.FUNCTION, .str "f"⟩ (by decide) (by decide)).2.1
      (by decide),
   (unrecognized_iff_outside_dispatch Demo.env ⟨"", .nil⟩ Demo.noBindings
      ⟨[Demo.tCmp ">"], 0⟩ ⟨[]⟩ (Demo.tCmp ">") (by decide) (by decide)).2.2.2
      (by decide) (by decide) (by decide) (by decide)⟩

/-- C11: for a token sequence made only of boolean, string, comparator, logical-operator,
variable, clause-open, clause-close, separator and non-exponent non-modulus modifier tokens
(each with the payload of its kind), the render loop succeeds: it runs through the whole
stream emitting exactly one fragment per token in order (TRUE or FALSE, the parentheses,
the comma, otherwise the textual value), and ToClientExpression's loop returns these
fragments joined by a single space: nothing for no fragment, the fragment itself for one,
and the first fragment, one space and the joined rest otherwise. -/
theorem simple_tokens_render_joined (env : Env F) (expression : EvaluableExpression F)
    (parameters : Parameters F) (tokens : List (ExpressionToken F))
    (h : ∀ t ∈ tokens, isSimpleToken env t = true) :
    LoopReach env expression parameters (newTokenStream tokens) ⟨[]⟩
      ⟨tokens, tokens.length⟩ ⟨tokens.map (simpleFragment env parameters)⟩ ∧
    renderTokens env expression parameters tokens
      = .done (" ".intercalate (tokens.map (simpleFragment env parameters)), none) ∧
    " ".intercalate [] = "" ∧ (∀ x : String, " ".intercalate [x] = x) ∧
    (∀ (x y : String) (ys : List String),
      " ".intercalate (x :: y :: ys) = x ++ " " ++ " ".intercalate (y :: ys)) := by
  have hall : List.Forall₂ (fun t x => plainFragment env expression parameters t = some x)
      tokens (tokens.map (simpleFragment env parameters)) :=
    forall₂_map_of_forall _ _ tokens
      (fun t ht => plainFragment_of_isSimpleToken env expression parameters t (h t ht))
  refine ⟨?_, renderTokens_plain env expression parameters tokens _ hall, rfl, fun _ => rfl,
    intercalate_cons_cons " "⟩
  have hreach := LoopReach.plain env expression parameters tokens _ [] [] [] hall
  simpa [newTokenStream] using hreach

/-- Witness of C11: the tokens of ( x > 1 ) && true render as ( x > 1 ) && TRUE. -/
theorem simple_tokens_render_joined_witness :
    renderTokens Demo.env ⟨"", .nil⟩ Demo.noBindings
        [⟨.CLAUSE, .nil⟩, Demo.tVar "x", Demo.tCmp ">", ⟨.STRING, .str "1"⟩,
          ⟨.CLAUSE_CLOSE, .nil⟩, Demo.tAnd, Demo.tTrue]
      = .done ("( x > 1 ) && TRUE", none) :=
  (simple_tokens_render_joined Demo.env ⟨"", .nil⟩ Demo.noBindings
    [⟨.CLAUSE, .nil⟩, Demo.tVar "x", Demo.tCmp ">", ⟨.STRING, .str "1"⟩,
      ⟨.CLAUSE_CLOSE, .nil⟩, Demo.tAnd, Demo.tTrue] (by decide)).2.1.trans (by decide)

/-- C12: for the token sequence l, m, r with l and r literal or variable tokens whose
renderings alone are L and R and m a modifier token of symbol s, rendering yields the
single fragment L^R when m is the exponent, the single fragment L % R when m is the
modulus, and the three fragments L, s, R joined by spaces for any other modifier. -/
theorem modifier_renders (env : Env F) (expression : EvaluableExpression F)
    (parameters : Parameters F) (l r : ExpressionToken F) (s L R : String)
    (hl : isOperandKind l.Kind = true) (hr : isOperandKind r.Kind = true)
    (hL : renderTokens env expression parameters [l] = .done (L, none))
    (hR : renderTokens env expression parameters [r] = .done (R, none)) :
    (env.modifierSymbols s = OperatorSymbol.EXPONENT →
      renderTokens env expression parameters [l, ⟨.MODIFIER, .str s⟩, r]
        = .done (L ++ "^" ++ R, none)) ∧
    (env.modifierSymbols s = OperatorSymbol.MODULUS →
      renderTokens env expression parameters [l, ⟨.MODIFIER, .str s⟩, r]
        = .done (L ++ " % " ++ R, none)) ∧
    (env.modifierSymbols s ≠ OperatorSymbol.EXPONENT →
      env.modifierSymbols s ≠ OperatorSymbol.MODULUS →
      renderTokens env expression parameters [l, ⟨.MODIFIER, .str s⟩, r]
        = .done (L ++ " " ++ s ++ " " ++ R, none) ∧
      LoopReach env expression parameters (newTokenStream [l, ⟨.MODIFIER, .str s⟩, r]) ⟨[]⟩
        ⟨[l, ⟨.MODIFIER, .str s⟩, r], 3⟩ ⟨[L, s, R]⟩) := by
  have pl := plainFragment_of_renderTokens env expression parameters l L hl hL
  have pr := plainFragment_of_renderTokens env expression parameters r R hr hR
  have h0 : findNextClientString env expression ⟨[l, ⟨.MODIFIER, .str s⟩, r], 0⟩ ⟨[]⟩ parameters
      = .done (L, none, ⟨[l, ⟨.MODIFIER, .str s⟩, r], 1⟩, ⟨[]⟩) :=
    findNextClientString_plain env expression parameters
      ⟨[l, ⟨.MODIFIER, .str s⟩, r], 0⟩ ⟨[]⟩ l L rfl pl
  have h2 : findNextClientStringAux env expression parameters 2
      ⟨[l, ⟨.MODIFIER, .str s⟩, r], 2⟩ ⟨[]⟩
      = .done (R, none, ⟨[l, ⟨.MODIFIER, .str s⟩, r], 3⟩, ⟨[]⟩) :=
    findNextClientStringAux_plain env expression parameters 1
      ⟨[l, ⟨.MODIFIER, .str s⟩, r], 2⟩ ⟨[]⟩ r R rfl pr
  have hop : ∀ (k : String → String),
      (findNextClientString env expression ⟨[l, ⟨.MODIFIER, .str s⟩, r], 1⟩ ⟨[L]⟩ parameters
        = .done (k R, none, ⟨[l, ⟨.MODIFIER, .str s⟩, r], 3⟩, ⟨[]⟩)) →
      renderTokens env expression parameters [l, ⟨.MODIFIER, .str s⟩, r]
        = .done (k R, none) := by
    intro k h1
    show renderLoop env expression parameters 4 ⟨[l, ⟨.MODIFIER, .str s⟩, r], 0⟩ ⟨[]⟩ = _
    rw [renderLoop]
    simp only [tokenStream.hasNext, List.length_cons, List.length_nil, h0,
      expressionOutputStream.add, List.nil_append]
    rw [renderLoop]
    simp [h1, renderLoop, tokenStream.hasNext, expressionOutputStream.add,
      expressionOutputStream.createString, String.intercalate, String.intercalate.go]
  refine ⟨?_, ?_, ?_⟩
  · intro hs
    apply hop (fun right => L ++ "^" ++ right)
    show findNextClientStringAux env expression parameters 3 _ _ = _
    rw [findNextClientStringAux]
    simp [tokenStream.next, hs, expressionOutputStream.rollback, h2, withOperand]
  · intro hs
    apply hop (fun right => L ++ " % " ++ right)
    show findNextClientStringAux env expression parameters 3 _ _ = _
    rw [findNextClientStringAux]
    simp [tokenStream.next, hs, expressionOutputStream.rollback, h2, withOperand]
  · intro hs1 hs2
    have pm : plainFragment env expression parameters ⟨.MODIFIER, .str s⟩ = some s := by
      simp only [plainFragment]
    have hall : List.Forall₂ (fun t x => plainFragment env expression parameters t = some x)
        [l, ⟨.MODIFIER, .str s⟩, r] [L, s, R] :=
      List.Forall₂.cons pl (List.Forall₂.cons pm (List.Forall₂.cons pr List.Forall₂.nil))
    constructor
    · rw [renderTokens_plain env expression parameters _ _ hall]
      simp [String.intercalate, String.intercalate.go]
    · have hreach := LoopReach.plain env expression parameters _ _ [] [] [] hall
      simpa [newTokenStream] using hreach

/-- Witness of C12: a ** b renders as a^b, a % b as a % b and a + b as a + b. -/
theorem modifier_renders_witness :
    renderTokens Demo.env ⟨"", .nil⟩ Demo.noBindings
        [Demo.tVar "a", Demo.tMod "**", Demo.tVar "b"] = .done ("a^b", none) ∧
    renderTokens Demo.env ⟨"", .nil⟩ Demo.noBindings
        [Demo.tVar "a", Demo.tMod "%", Demo.tVar "b"] = .done ("a % b", none) ∧
    renderTokens Demo.env ⟨"", .nil⟩ Demo.noBindings
        [Demo.tVar "a", Demo.tMod "+", Demo.tVar "b"] = .done ("a + b", none) :=
  ⟨(modifier_renders Demo.env ⟨"", .nil⟩ Demo.noBindings (Demo.tVar "a") (Demo.tVar "b")
      "**" "a" "b" (by decide) (by decide) (by decide) (by decide)).1 (by decide),
   (modifier_renders Demo.env ⟨"", .nil⟩ Demo.noBindings (Demo.tVar "a") (Demo.tVar "b")
      "%" "a" "b" (by decide) (by decide) (by decide) (by decide)).2.1 (by decide),
   ((modifier_renders Demo.env ⟨"", .nil⟩ Demo.noBindings (Demo.tVar "a") (Demo.tVar "b")
      "+" "a" "b" (by decide) (by decide) (by decide) (by decide)).2.2
      (by decide) (by decide)).1⟩

/-- C13 (counterexample): with x bound to the string 2 + 3, the tokens of true ? x fold to
the tokens of 2 + 3 (the lexed text of the value), and folding these again gives the token
of 5: a second folding changes the sequence. -/
theorem folding_not_idempotent :
    simplifyTokens Demo.envWords [Demo.tTrue, Demo.tTern "?", Demo.tVar "x"] Demo.xIsText
      = [Demo.tNum 2, Demo.tMod "+", Demo.tNum 3] ∧
    simplifyTokens Demo.envWords
        (simplifyTokens Demo.envWords [Demo.tTrue, Demo.tTern "?", Demo.tVar "x"] Demo.xIsText)
        Demo.xIsText
      = [Demo.tNum 5] ∧
    simplifyTokens Demo.envWords
        (simplifyTokens Demo.envWords [Demo.tTrue, Demo.tTern "?", Demo.tVar "x"] Demo.xIsText)
        Demo.xIsText
      ≠ simplifyTokens Demo.envWords [Demo.tTrue, Demo.tTern "?", Demo.tVar "x"] Demo.xIsText := by
  decide

/-- C13 (amended): folding a folded sequence again leaves it unchanged whenever the folded
sequence has at most one token, or the first folding left the sequence unchanged, or the
folded sequence cannot itself be folded because planning it, evaluating it or lexing the
text of its value fails. -/
theorem folding_idempotent_when_settled (env : Env F) (tokens : List (ExpressionToken F))
    (parameters : Parameters F)
    (h : (simplifyTokens env tokens parameters).length ≤ 1 ∨
      simplifyTokens env tokens parameters = tokens ∨
      env.NewEvaluableExpressionFromTokens (simplifyTokens env tokens parameters) = none ∨
      (∃ new, env.NewEvaluableExpressionFromTokens (simplifyTokens env tokens parameters)
          = some new ∧ env.Evaluate new parameters = none) ∨
      (∃ new val, env.NewEvaluableExpressionFromTokens (simplifyTokens env tokens parameters)
          = some new ∧ env.Evaluate new parameters = some val ∧
          env.parseTokens (env.sprintV val) = none)) :
    simplifyTokens env (simplifyTokens env tokens parameters) parameters
      = simplifyTokens env tokens parameters := by
  rcases h with h | h | h | ⟨new, h1, h2⟩ | ⟨new, val, h1, h2, h3⟩
  · generalize simplifyTokens env tokens parameters = folded at h
    have : ¬ folded.length > 1 := by omega
    simp [simplifyTokens, this]
  · rw [h, h]
  · generalize simplifyTokens env tokens parameters = folded at h
    simp [simplifyTokens, h]
  · generalize simplifyTokens env tokens parameters = folded at h1
    simp [simplifyTokens, h1, h2]
  · generalize simplifyTokens env tokens parameters = folded at h1
    simp [simplifyTokens, h1, h2, h3]

/-- Witness of C13 (amended): the tokens of 2 + 3 fold to the one token of 5, which a second
folding leaves unchanged. -/
theorem folding_idempotent_when_settled_witness :
    simplifyTokens Demo.env
        (simplifyTokens Demo.env [Demo.tNum 2, Demo.tMod "+", Demo.tNum 3] Demo.noBindings)
        Demo.noBindings
      = [Demo.tNum 5] :=
  (folding_idempotent_when_settled Demo.env [Demo.tNum 2, Demo.tMod "+", Demo.tNum 3]
    Demo.noBindings (Or.inl (by decide))).trans (by decide)

/-- C14: dropLeadingTrues returns false exactly when the root token has a non-nil value, is
a logical operator of value AND, and left is the one boolean token true; in every other
case, under the token invariant, it returns true, and the stage then keeps left and, when
the operator value is not nil, the operator token: what the stage goes on with is the
clause-open token of a grouping stage, left and the operator token. -/
theorem dropLeadingTrues_false_iff (env : Env F) (left right : List (ExpressionToken F))
    (rootToken : ExpressionToken F) (symbol : OperatorSymbol) :
    (dropLeadingTrues env left rootToken = .done false ↔
      (rootToken.Value.isNil = false ∧ rootToken.Kind = TokenKind.LOGICALOP ∧
        rootToken.Value = .str env.andString ∧ left = [⟨.BOOLEAN, .bool true⟩])) ∧
    ((∀ t ∈ left, tokenTyped t = true) → rootTyped rootToken = true →
      ¬ (rootToken.Value.isNil = false ∧ rootToken.Kind = TokenKind.LOGICALOP ∧
        rootToken.Value = .str env.andString ∧ left = [⟨.BOOLEAN, .bool true⟩]) →
      dropLeadingTrues env left rootToken = .done true) ∧
    (dropLeadingTrues env left rootToken = .done true →
      buildStage env symbol rootToken left right
        = match dropTrailingTrues env (clauseOpen symbol ++ left ++ operatorTokens rootToken)
            right with
          | .done (ret, okToAdd) =>
            .done ((if okToAdd then ret ++ right else ret) ++ clauseClose symbol)
          | .panic => .panic
          | .outOfFuel => .outOfFuel) := by
  refine ⟨⟨dropLeadingTrues_done_false env left rootToken, ?_⟩, ?_, ?_⟩
  · rintro ⟨_, hk, hv, rfl⟩
    obtain ⟨k, v⟩ := rootToken
    simp only at hk hv
    subst hk hv
    simp [dropLeadingTrues, Value.isNil]
  · intro hl hr hcond
    obtain ⟨b, hb⟩ := dropLeadingTrues_total env left rootToken hl hr
    cases b with
    | true => exact hb
    | false => exact absurd (dropLeadingTrues_done_false env left rootToken hb) hcond
  · intro h
    unfold buildStage
    simp only [h, if_true, Bool.and_true]
    have hret : (if (!rootToken.Value.isNil) = true then
        (if symbol = OperatorSymbol.NOOP
          then [(⟨TokenKind.CLAUSE, .nil⟩ : ExpressionToken F)] else []) ++ left ++ [rootToken]
        else (if symbol = OperatorSymbol.NOOP
          then [(⟨TokenKind.CLAUSE, .nil⟩ : ExpressionToken F)] else []) ++ left)
        = clauseOpen symbol ++ left ++ operatorTokens rootToken := by
      cases hnil : rootToken.Value.isNil <;> simp [clauseOpen, operatorTokens, hnil]
    rw [hret]
    cases dropTrailingTrues env (clauseOpen symbol ++ left ++ operatorTokens rootToken) right with
    | panic => rfl
    | outOfFuel => rfl
    | done a =>
      obtain ⟨ret, ok⟩ := a
      by_cases hs : symbol = OperatorSymbol.NOOP <;> simp [clauseClose, hs]

/-- Witness of C14: with the root token AND, the lone literal true is dropped and the
variable x is kept. -/
theorem dropLeadingTrues_false_iff_witness :
    dropLeadingTrues Demo.env [Demo.tTrue] Demo.tAnd = .done false ∧
    dropLeadingTrues Demo.env [Demo.tVar "x"] Demo.tAnd = .done true :=
  ⟨(dropLeadingTrues_false_iff Demo.env [Demo.tTrue] [] Demo.tAnd (.other 0)).1.2
      (by decide),
   (dropLeadingTrues_false_iff Demo.env [Demo.tVar "x"] [] Demo.tAnd (.other 0)).2.1
      (by decide) (by decide) (by decide)⟩

/-- C15: dropTrailingTrues returns the tokens unchanged with the flag true unless the
tokens end in a logical operator and right is the one boolean token true; in that case,
under the token invariant, the flag is false and the sequence is the tokens without their
last one when that operator is AND and the tokens untouched for another logical operator.
The returned sequence is always a prefix of the tokens, of their length or one shorter. -/
theorem dropTrailingTrues_cases (env : Env F) (tokens right : List (ExpressionToken F)) :
    ((∀ t ∈ right, tokenTyped t = true) →
      ¬ (∃ lastToken, tokens.getLast? = some lastToken ∧
          lastToken.Kind = TokenKind.LOGICALOP ∧ right = [⟨.BOOLEAN, .bool true⟩]) →
      dropTrailingTrues env tokens right = .done (tokens, true)) ∧
    (∀ lastToken s, tokens.getLast? = some lastToken →
      lastToken.Kind = TokenKind.LOGICALOP → lastToken.Value = .str s →
      right = [⟨.BOOLEAN, .bool true⟩] →
      dropTrailingTrues env tokens right
        = .done (if s = env.andString then tokens.dropLast else tokens, false)) ∧
    (∀ ret ok, dropTrailingTrues env tokens right = .done (ret, ok) →
      ret <+: tokens ∧
      (ret.length = tokens.length ∨ ret.length = tokens.length - 1) ∧
      (ok = true → ret = tokens)) := by
  refine ⟨?_, ?_, ?_⟩
  · intro hr hcond
    by_cases hlen : right.length = 1
    · obtain ⟨r0, rfl⟩ := List.length_eq_one.mp hlen
      cases hl : tokens.getLast? with
      | none =>
        have : tokens = [] := List.getLast?_eq_none_iff.mp hl
        subst this
        exact dropTrailingTrues_nil env _
      | some lastToken =>
        have hne : tokens ≠ [] := by
          intro h
          subst h
          cases hl
        have hpos : 0 < tokens.length := List.length_pos.mpr hne
        by_cases hk : lastToken.Kind = TokenKind.LOGICALOP ∧ r0.Kind = TokenKind.BOOLEAN
        · obtain ⟨b, hb⟩ := tokenTyped_boolean r0 (hr r0 (List.mem_singleton_self _)) hk.2
          cases b with
          | false => simp [dropTrailingTrues, hl, hk, hb, hpos]
          | true =>
            exfalso
            apply hcond
            refine ⟨lastToken, hl, hk.1, ?_⟩
            obtain ⟨k0, v0⟩ := r0
            simp only at hb hk
            rw [hb, hk.2]
        · have hk2 : ¬lastToken.Kind = TokenKind.LOGICALOP ∨ ¬r0.Kind = TokenKind.BOOLEAN := by
            by_cases h1 : lastToken.Kind = TokenKind.LOGICALOP
            · exact Or.inr (fun h2 => hk ⟨h1, h2⟩)
            · exact Or.inl h1
          simp [dropTrailingTrues, hl, hk2]
    · simp [dropTrailingTrues, hlen]
  · intro lastToken s hl hk hv hr
    subst hr
    have hne : tokens ≠ [] := by
      intro h
      subst h
      cases hl
    have hpos : 0 < tokens.length := List.length_pos.mpr hne
    by_cases hs : s = env.andString <;> simp [dropTrailingTrues, hl, hk, hv, hpos, hs]
  · intro ret ok h
    rcases dropTrailingTrues_done env tokens right ret ok h with
      ⟨hok, rfl⟩ | ⟨hok, _, lastToken, s, hl, _, _, hret⟩
    · exact ⟨List.prefix_refl _, Or.inl rfl, fun _ => rfl⟩
    · subst hok
      by_cases hs : s = env.andString
      · rw [if_pos hs] at hret
        subst hret
        exact ⟨List.dropLast_prefix _, Or.inr (List.length_dropLast _), fun h => by cases h⟩
      · rw [if_neg hs] at hret
        subst hret
        exact ⟨List.prefix_refl _, Or.inl rfl, fun _ => rfl⟩

/-- Witness of C15: after x && the right operand true drops the operator, after x || it
leaves the tokens and is itself suppressed, and the right operand y is kept. -/
theorem dropTrailingTrues_cases_witness :
    dropTrailingTrues Demo.env [Demo.tVar "x", Demo.tAnd] [Demo.tTrue]
      = .done ([Demo.tVar "x"], false) ∧
    dropTrailingTrues Demo.env [Demo.tVar "x", Demo.tOr] [Demo.tTrue]
      = .done ([Demo.tVar "x", Demo.tOr], false) ∧
    dropTrailingTrues Demo.env [Demo.tVar "x", Demo.tAnd] [Demo.tVar "y"]
      = .done ([Demo.tVar "x", Demo.tAnd], true) :=
  ⟨(dropTrailingTrues_cases Demo.env [Demo.tVar "x", Demo.tAnd] [Demo.tTrue]).2.1
      Demo.tAnd "&&" (by decide) (by decide) (by decide) (by decide),
   (dropTrailingTrues_cases Demo.env [Demo.tVar "x", Demo.tOr] [Demo.tTrue]).2.1
      Demo.tOr "||" (by decide) (by decide) (by decide) (by decide),
   (dropTrailingTrues_cases Demo.env [Demo.tVar "x", Demo.tAnd] [Demo.tVar "y"]).1
      (by decide) (by decide)⟩

/-- C16: the sequence a grouping stage (symbol NOOP) builds before folding starts with a
clause-open token and ends with a clause-close token, and is the sequence of a stage of any
other symbol between these two tokens; a stage of another symbol adds neither, its sequence
holding only tokens of its operands and its own token. For a grouping stage with a nil
operator value, no left child and the right child R the sequence is clause-open, the
linearization of R, clause-close; traverseStages returns its folding, which is the sequence
itself whenever building an expression from it, evaluating it or lexing the text of its
value fails. -/
theorem grouping_stage_clause_tokens (env : Env F) (parameters : Parameters F) :
    (∀ tok left right ret, buildStage env OperatorSymbol.NOOP tok left right = .done ret →
      ret.head? = some ⟨TokenKind.CLAUSE, .nil⟩ ∧
      ret.getLast? = some ⟨TokenKind.CLAUSE_CLOSE, .nil⟩) ∧
    (∀ symbol tok left right, symbol ≠ OperatorSymbol.NOOP →
      buildStage env OperatorSymbol.NOOP tok left right
        = match buildStage env symbol tok left right with
          | .done ret =>
            .done (⟨TokenKind.CLAUSE, .nil⟩ :: ret ++ [⟨TokenKind.CLAUSE_CLOSE, .nil⟩])
          | .panic => .panic
          | .outOfFuel => .outOfFuel) ∧
    (∀ symbol tok left right ret, symbol ≠ OperatorSymbol.NOOP →
      buildStage env symbol tok left right = .done ret →
      ∀ t ∈ ret, t ∈ left ∨ (t = tok ∧ tok.Value.isNil = false) ∨ t ∈ right) ∧
    (∀ tok R r, tok.Value.isNil = true → traverseStages env parameters R = .done r →
      buildStage env OperatorSymbol.NOOP tok [] r
        = .done (⟨TokenKind.CLAUSE, .nil⟩ :: r ++ [⟨TokenKind.CLAUSE_CLOSE, .nil⟩]) ∧
      traverseStages env parameters (.node OperatorSymbol.NOOP .nil R tok)
        = .done (simplifyTokens env
            (⟨TokenKind.CLAUSE, .nil⟩ :: r ++ [⟨TokenKind.CLAUSE_CLOSE, .nil⟩]) parameters) ∧
      ((env.NewEvaluableExpressionFromTokens
            (⟨TokenKind.CLAUSE, .nil⟩ :: r ++ [⟨TokenKind.CLAUSE_CLOSE, .nil⟩]) = none ∨
          (∃ new, env.NewEvaluableExpressionFromTokens
              (⟨TokenKind.CLAUSE, .nil⟩ :: r ++ [⟨TokenKind.CLAUSE_CLOSE, .nil⟩]) = some new ∧
            env.Evaluate new parameters = none) ∨
          (∃ new val, env.NewEvaluableExpressionFromTokens
              (⟨TokenKind.CLAUSE, .nil⟩ :: r ++ [⟨TokenKind.CLAUSE_CLOSE, .nil⟩]) = some new ∧
            env.Evaluate new parameters = some val ∧
            env.parseTokens (env.sprintV val) = none)) →
        traverseStages env parameters (.node OperatorSymbol.NOOP .nil R tok)
          = .done (⟨TokenKind.CLAUSE, .nil⟩ :: r ++ [⟨TokenKind.CLAUSE_CLOSE, .nil⟩]))) := by
  refine ⟨?_, ?_, ?_, ?_⟩
  · intro tok left right ret h
    rw [buildStage_noop env (.other 0) tok left right (by simp)] at h
    cases hb : buildStage env (.other 0) tok left right with
    | panic => simp [hb] at h
    | outOfFuel => simp [hb] at h
    | done inner =>
      simp only [hb, Exec.done.injEq] at h
      subst h
      constructor
      · rfl
      · rw [List.getLast?_append]
        rfl
  · intro symbol tok left right hs
    exact buildStage_noop env symbol tok left right hs
  · intro symbol tok left right ret hs h
    exact buildStage_mem env symbol tok left right ret hs h
  · intro tok R r hnil hR
    have hb : buildStage env OperatorSymbol.NOOP tok [] r
        = .done (⟨TokenKind.CLAUSE, .nil⟩ :: r ++ [⟨TokenKind.CLAUSE_CLOSE, .nil⟩]) := by
      rw [buildStage_eq]
      have hd : dropLeadingTrues env [] tok = .done true := by
        simp [dropLeadingTrues, hnil]
      simp only [hd, clauseOpen, clauseClose, operatorTokens, hnil, if_true, List.nil_append,
        List.append_nil]
      rw [dropTrailingTrues_cons env _ _ _ (by simp), dropTrailingTrues_nil]
      simp
    have ht : traverseStages env parameters (.node OperatorSymbol.NOOP .nil R tok)
        = .done (simplifyTokens env
            (⟨TokenKind.CLAUSE, .nil⟩ :: r ++ [⟨TokenKind.CLAUSE_CLOSE, .nil⟩]) parameters) := by
      simp only [traverseStages, hR, hb]
    refine ⟨hb, ht, ?_⟩
    intro hfail
    rw [ht]
    generalize (⟨TokenKind.CLAUSE, .nil⟩ :: r ++ [⟨TokenKind.CLAUSE_CLOSE, .nil⟩]
      : List (ExpressionToken F)) = built at hfail
    rcases hfail with h | ⟨new, h1, h2⟩ | ⟨new, val, h1, h2, h3⟩
    · simp [simplifyTokens, h]
    · simp [simplifyTokens, h1, h2]
    · simp [simplifyTokens, h1, h2, h3]

/-- Witness of C16: the grouping stage over x > 1 linearizes to ( x > 1 ), which the
planner of the instance does not fold. -/
theorem grouping_stage_clause_tokens_witness :
    traverseStages Demo.env Demo.noBindings
        (.node OperatorSymbol.NOOP .nil Demo.xGt1 ⟨.UNKNOWN, .nil⟩)
      = .done [⟨.CLAUSE, .nil⟩, Demo.tVar "x", Demo.tCmp ">", Demo.tNum 1,
          ⟨.CLAUSE_CLOSE, .nil⟩] :=
  ((grouping_stage_clause_tokens Demo.env Demo.noBindings).2.2.2 ⟨.UNKNOWN, .nil⟩ Demo.xGt1
    [Demo.tVar "x", Demo.tCmp ">", Demo.tNum 1] (by decide) (by decide)).2.2
    (Or.inl (by decide))

/-- C17: ToClientExpression terminates on every stage tree. traverseStages is defined by
recursion on the tree: it returns the empty sequence for an absent stage, its result for a
stage is determined by its results for the two children, and it never runs out of fuel. A
findNextClientString call never runs out of the fuel of one unit per remaining token; when
it returns a fragment the stream keeps its tokens and its cursor is strictly ahead, within
the sequence; an advance followed by a rewind restores the stream. So the loop never runs
out of one unit of fuel per token plus one, and more fuel does not change its result. -/
theorem toClientExpression_terminates (env : Env F) (expression : EvaluableExpression F)
    (parameters : Parameters F) :
    ToClientExpression env expression parameters ≠ .outOfFuel ∧
    traverseStages env parameters .nil = .done [] ∧
    (∀ tree, traverseStages env parameters tree ≠ .outOfFuel) ∧
    (∀ symbol tok l l1 r r1,
      traverseStages env parameters l = traverseStages env parameters l1 →
      traverseStages env parameters r = traverseStages env parameters r1 →
      traverseStages env parameters (.node symbol l r tok)
        = traverseStages env parameters (.node symbol l1 r1 tok)) ∧
    (∀ stream transactions,
      findNextClientString env expression stream transactions parameters ≠ .outOfFuel) ∧
    (∀ stream transactions x s1 out1,
      findNextClientString env expression stream transactions parameters
        = .done (x, none, s1, out1) →
      s1.tokens = stream.tokens ∧ stream.index < s1.index ∧
        s1.index ≤ stream.tokens.length) ∧
    (∀ (stream s1 : tokenStream F) (t : ExpressionToken F), stream.next = some (t, s1) →
      s1.index = stream.index + 1 ∧ s1.rewind = stream) ∧
    (∀ ret fuel, ret.length + 1 ≤ fuel →
      renderLoop env expression parameters fuel (newTokenStream ret) ⟨[]⟩
        = renderTokens env expression parameters ret ∧
      renderTokens env expression parameters ret ≠ .outOfFuel) := by
  have hloop : ∀ ret : List (ExpressionToken F),
      renderTokens env expression parameters ret ≠ .outOfFuel := by
    intro ret
    exact renderLoop_fuel env expression parameters _ _ _ (by simp [newTokenStream])
  refine ⟨?_, rfl, traverseStages_ne_outOfFuel env parameters, ?_, ?_, ?_, ?_, ?_⟩
  · unfold ToClientExpression
    cases ht : traverseStages env parameters expression.evaluationStages with
    | panic => simp
    | outOfFuel => exact absurd ht (traverseStages_ne_outOfFuel env parameters _)
    | done ret => exact hloop ret
  · intro symbol tok l l1 r r1 hl hr
    simp only [traverseStages, hl, hr]
  · intro stream transactions
    exact findNextClientString_fuel env expression parameters stream transactions
  · intro stream transactions x s1 out1 h
    obtain ⟨h1, h2, h3, _, _⟩ := findNextClientString_done env expression parameters h
    exact ⟨h1, h2, h3⟩
  · intro stream s1 t h
    obtain ⟨_, hs1, _⟩ := tokenStream.next_eq_some h
    exact ⟨by rw [hs1], tokenStream.next_rewind h⟩
  · intro ret fuel hfuel
    exact ⟨renderLoop_fuel_eq env expression parameters _ _ _ _
      (by simpa [newTokenStream] using hfuel) (by simp [newTokenStream]), hloop ret⟩

/-- Witness of C17: the step at ! x leaves the cursor two tokens ahead, and the loop over
the two tokens gives its result with any larger amount of fuel. -/
theorem toClientExpression_terminates_witness :
    (0 < 2 ∧ 2 ≤ [Demo.tNot, Demo.tVar "x"].length) ∧
    renderLoop Demo.env ⟨"", .nil⟩ Demo.noBindings 10
        (newTokenStream [Demo.tNot, Demo.tVar "x"]) ⟨[]⟩ = .done ("NOT (x)", none) :=
  ⟨((toClientExpression_terminates Demo.env ⟨"", .nil⟩ Demo.noBindings).2.2.2.2.2.1
      ⟨[Demo.tNot, Demo.tVar "x"], 0⟩ ⟨[]⟩ "NOT (x)" ⟨[Demo.tNot, Demo.tVar "x"], 2⟩ ⟨[]⟩
      (by decide)).2,
   (((toClientExpression_terminates Demo.env ⟨"", .nil⟩ Demo.noBindings).2.2.2.2.2.2.2
      [Demo.tNot, Demo.tVar "x"] 10 (by decide)).1).trans (by decide)⟩

/-- C18: the left operand taken by coalesce, exponent and modulus is the single most
recently emitted fragment: entered with the buffer holding pre followed by x, the step
renders its operand from the buffer pre and builds its fragment from x alone. So for the
tokens clause-open, a, clause-close, operator, b with a and b literal or variable tokens
rendering alone to A and B, the operator captures only the closing parenthesis: coalesce gives
( A IF() == NULL, B, )) and exponent gives ( A )^B. -/
theorem left_operand_is_last_fragment (env : Env F) (expression : EvaluableExpression F)
    (parameters : Parameters F) (a b : ExpressionToken F) (A B : String)
    (ha : isOperandKind a.Kind = true) (hb : isOperandKind b.Kind = true)
    (hA : renderTokens env expression parameters [a] = .done (A, none))
    (hB : renderTokens env expression parameters [b] = .done (B, none)) :
    (∀ (stream : tokenStream F) (pre : List String) (x s : String),
      stream.tokens[stream.index]? = some ⟨.TERNARY, .str s⟩ →
      env.ternarySymbols s = OperatorSymbol.COALESCE →
      findNextClientString env expression stream ⟨pre ++ [x]⟩ parameters
        = withOperand
            (findNextClientString env expression ⟨stream.tokens, stream.index + 1⟩ ⟨pre⟩
              parameters)
            (fun right => "IF(" ++ x ++ " == NULL, " ++ right ++ ", " ++ x ++ ")")) ∧
    (∀ (stream : tokenStream F) (pre : List String) (x s : String),
      stream.tokens[stream.index]? = some ⟨.MODIFIER, .str s⟩ →
      env.modifierSymbols s = OperatorSymbol.EXPONENT →
      findNextClientString env expression stream ⟨pre ++ [x]⟩ parameters
        = withOperand
            (findNextClientString env expression ⟨stream.tokens, stream.index + 1⟩ ⟨pre⟩
              parameters)
            (fun right => x ++ "^" ++ right)) ∧
    (∀ (stream : tokenStream F) (pre : List String) (x s : String),
      stream.tokens[stream.index]? = some ⟨.MODIFIER, .str s⟩ →
      env.modifierSymbols s = OperatorSymbol.MODULUS →
      findNextClientString env expression stream ⟨pre ++ [x]⟩ parameters
        = withOperand
            (findNextClientString env expression ⟨stream.tokens, stream.index + 1⟩ ⟨pre⟩
              parameters)
            (fun right => x ++ " % " ++ right)) ∧
    (∀ s, env.ternarySymbols s = OperatorSymbol.COALESCE →
      renderTokens env expression parameters
          [⟨.CLAUSE, .nil⟩, a, ⟨.CLAUSE_CLOSE, .nil⟩, ⟨.TERNARY, .str s⟩, b]
        = .done ("( " ++ A ++ " IF() == NULL, " ++ B ++ ", ))", none)) ∧
    (∀ s, env.modifierSymbols s = OperatorSymbol.EXPONENT →
      renderTokens env expression parameters
          [⟨.CLAUSE, .nil⟩, a, ⟨.CLAUSE_CLOSE, .nil⟩, ⟨.MODIFIER, .str s⟩, b]
        = .done ("( " ++ A ++ " )^" ++ B, none)) := by
  have pa := plainFragment_of_renderTokens env expression parameters a A ha hA
  have pb := plainFragment_of_renderTokens env expression parameters b B hb hB
  have hrun : ∀ (op : ExpressionToken F) (k : String → String),
      findNextClientString env expression
          ⟨[⟨.CLAUSE, .nil⟩, a, ⟨.CLAUSE_CLOSE, .nil⟩, op, b], 3⟩ ⟨["(", A] ++ [")"]⟩ parameters
        = withOperand (findNextClientString env expression
            ⟨[⟨.CLAUSE, .nil⟩, a, ⟨.CLAUSE_CLOSE, .nil⟩, op, b], 3 + 1⟩ ⟨["(", A]⟩ parameters) k →
      renderTokens env expression parameters
          [⟨.CLAUSE, .nil⟩, a, ⟨.CLAUSE_CLOSE, .nil⟩, op, b]
        = .done (" ".intercalate ["(", A, k B], none) := by
    intro op k hstep
    have hall : List.Forall₂ (fun t x => plainFragment env expression parameters t = some x)
        [⟨.CLAUSE, .nil⟩, a, ⟨.CLAUSE_CLOSE, .nil⟩] ["(", A, ")"] :=
      List.Forall₂.cons rfl (List.Forall₂.cons pa (List.Forall₂.cons rfl List.Forall₂.nil))
    have h3 := LoopReach.plain env expression parameters _ _ [] [op, b] [] hall
    have h4 := findNextClientString_plain env expression parameters
      ⟨[⟨.CLAUSE, .nil⟩, a, ⟨.CLAUSE_CLOSE, .nil⟩, op, b], 4⟩ ⟨["(", A]⟩ b B rfl pb
    rw [h4] at hstep
    have hlast : LoopReach env expression parameters
        ⟨[⟨.CLAUSE, .nil⟩, a, ⟨.CLAUSE_CLOSE, .nil⟩, op, b], 3⟩ ⟨["(", A] ++ [")"]⟩
        ⟨[⟨.CLAUSE, .nil⟩, a, ⟨.CLAUSE_CLOSE, .nil⟩, op, b], 5⟩ ⟨["(", A, k B]⟩ :=
      LoopReach.step (by simp [tokenStream.hasNext]) hstep (LoopReach.here _ _)
    exact renderTokens_of_reach env expression parameters _ _
      (LoopReach.trans env expression parameters h3 hlast)
  refine ⟨?_, ?_, ?_, ?_, ?_⟩
  · intro stream pre x s hget hs
    exact findNextClientString_coalesce env expression parameters stream pre x s hget hs
  · intro stream pre x s hget hs
    exact findNextClientString_exponent env expression parameters stream pre x s hget hs
  · intro stream pre x s hget hs
    exact findNextClientString_modulus env expression parameters stream pre x s hget hs
  · intro s hs
    rw [hrun _ _ (findNextClientString_coalesce env expression parameters
      ⟨[⟨.CLAUSE, .nil⟩, a, ⟨.CLAUSE_CLOSE, .nil⟩, ⟨.TERNARY, .str s⟩, b], 3⟩ ["(", A] ")" s
      rfl hs)]
    congr 2
    apply String.ext
    simp [String.intercalate, String.intercalate.go, String.data_append]
  · intro s hs
    rw [hrun _ _ (findNextClientString_exponent env expression parameters
      ⟨[⟨.CLAUSE, .nil⟩, a, ⟨.CLAUSE_CLOSE, .nil⟩, ⟨.MODIFIER, .str s⟩, b], 3⟩ ["(", A] ")" s
      rfl hs)]
    congr 2
    apply String.ext
    simp [String.intercalate, String.intercalate.go, String.data_append]

/-- Witness of C18: ( a ) ?? b renders as ( a IF() == NULL, b, )) and ( a ) ** b as
( a )^b, with a and b unbound. -/
theorem left_operand_is_last_fragment_witness :
    renderTokens Demo.env ⟨"", .nil⟩ Demo.noBindings
        [⟨.CLAUSE, .nil⟩, Demo.tVar "a", ⟨.CLAUSE_CLOSE, .nil⟩, Demo.tTern "??", Demo.tVar "b"]
      = .done ("( a IF() == NULL, b, ))", none) ∧
    renderTokens Demo.env ⟨"", .nil⟩ Demo.noBindings
        [⟨.CLAUSE, .nil⟩, Demo.tVar "a", ⟨.CLAUSE_CLOSE, .nil⟩, Demo.tMod "**", Demo.tVar "b"]
      = .done ("( a )^b", none) :=
  ⟨(left_operand_is_last_fragment Demo.env ⟨"", .nil⟩ Demo.noBindings (Demo.tVar "a")
      (Demo.tVar "b") "a" "b" (by decide) (by decide) (by decide) (by decide)).2.2.2.1
      "??" (by decide),
   (left_operand_is_last_fragment Demo.env ⟨"", .nil⟩ Demo.noBindings (Demo.tVar "a")
      (Demo.tVar "b") "a" "b" (by decide) (by decide) (by decide) (by decide)).2.2.2.2
      "**" (by decide)⟩

/-- C19: under the token invariant (a boolean token carries a bool, a logical-operator
token carries a string) dropLeadingTrues and dropTrailingTrues return a result for all
inputs, the empty sequences and a root token of nil value included, without a failed index
or type assertion; so traverseStages returns a sequence, of well-typed tokens, for every
tree whose stage tokens satisfy the invariant or have a nil value, the lexer used by the
folding returning well-typed tokens. -/
theorem elision_functions_total (env : Env F) (parameters : Parameters F) :
    (∀ left rootToken, (∀ t ∈ left, tokenTyped t = true) → rootTyped rootToken = true →
      ∃ b, dropLeadingTrues env left rootToken = .done b) ∧
    (∀ tokens right, (∀ t ∈ tokens, tokenTyped t = true) →
      (∀ t ∈ right, tokenTyped t = true) →
      ∃ ret ok, dropTrailingTrues env tokens right = .done (ret, ok)) ∧
    (∀ rootToken right, rootTyped rootToken = true → (∀ t ∈ right, tokenTyped t = true) →
      dropLeadingTrues env [] rootToken = .done true ∧
      dropTrailingTrues env [] right = .done ([], true)) ∧
    (∀ left tokens rootToken, rootToken.Value.isNil = true →
      dropLeadingTrues env left rootToken = .done true ∧
      dropTrailingTrues env tokens [] = .done (tokens, true)) ∧
    ((∀ text toks, env.parseTokens text = some toks → ∀ t ∈ toks, tokenTyped t = true) →
      ∀ tree, treeTyped tree = true →
        ∃ ret, traverseStages env parameters tree = .done ret ∧
          ∀ t ∈ ret, tokenTyped t = true) := by
  refine ⟨?_, ?_, ?_, ?_, ?_⟩
  · intro left rootToken hl hr
    exact dropLeadingTrues_total env left rootToken hl hr
  · intro tokens right ht hr
    obtain ⟨⟨ret, ok⟩, h⟩ := dropTrailingTrues_total env tokens right ht hr
    exact ⟨ret, ok, h⟩
  · intro rootToken right _ _
    exact ⟨by simp [dropLeadingTrues], dropTrailingTrues_nil env right⟩
  · intro left tokens rootToken hnil
    exact ⟨by simp [dropLeadingTrues, hnil], by simp [dropTrailingTrues]⟩
  · intro hlex tree htree
    exact traverseStages_typed env parameters hlex tree htree

/-- Witness of C19: the tree of true && ( x > 1 ), whose tokens are well typed, linearizes
without failure. -/
theorem elision_functions_total_witness :
    ∃ ret, traverseStages Demo.env Demo.noBindings
        (Demo.binary .AND (Demo.leaf Demo.tTrue) Demo.tAnd
          (.node OperatorSymbol.NOOP .nil Demo.xGt1 ⟨.UNKNOWN, .nil⟩)) = .done ret ∧
      ∀ t ∈ ret, tokenTyped t = true :=
  (elision_functions_total Demo.env Demo.noBindings).2.2.2.2 Demo.parseTokens_typed
    (Demo.binary .AND (Demo.leaf Demo.tTrue) Demo.tAnd
      (.node OperatorSymbol.NOOP .nil Demo.xGt1 ⟨.UNKNOWN, .nil⟩)) (by decide)

end Claims

end Govaluate
